import Mathlib

/-!
Verification of the callback dispatch and forwarding subsystem of the EOmaps
interactive-map library (`src/eomaps/_cb_container.py`).

Strings are embedded as lists of characters (`Str`); Python dicts (which keep
insertion order) are embedded as association lists with first-match lookup,
in-place update and append-on-fresh-key insertion; Python exceptions are
embedded as `Except PyErr`.  Each definition mirrors the corresponding Python
function of the source; deviations (unreachable code paths, external
collaborators modelled from the spec) are noted in the doc comments.
-/

/-- Characters-as-list embedding of Python strings. -/

abbrev Str := List Char

/-- Convert a Lean string literal to the `Str` embedding. -/
def sL (s : String) : Str := s.toList

/-- Python exceptions raised by the embedded code. -/
inductive PyErr where
  | assertionError
  | valueError
  | nameError
  deriving DecidableEq

deriving instance DecidableEq for Except

/-- Decimal digit character (for `0 ≤ n ≤ 9`), as produced by Python `str`. -/
def digitChar (n : Nat) : Char := Char.ofNat (48 + n)

/-- Fuel-driven digit expansion (structural recursion so that concrete
evaluation reduces in the kernel); `fuel > n` always suffices. -/
def natToStrAux (fuel n : Nat) : Str :=
  match fuel with
  | 0 => []
  | fuel + 1 =>
    if n < 10 then [digitChar n]
    else natToStrAux fuel (n / 10) ++ [digitChar (n % 10)]

/-- Decimal rendering of a natural number, mirroring Python `str(n)`/f-string
formatting of a non-negative int. -/
def natToStr (n : Nat) : Str := natToStrAux (n + 1) n

/-- Is `c` a decimal digit? -/
def isDigitCh (c : Char) : Bool := 48 ≤ c.toNat && c.toNat ≤ 57

/-- Numeric value of a digit string (total helper; callers guard with
`parseNat?` where Python `int()` could raise). -/
def parseNat (s : Str) : Nat := s.foldl (fun a c => a * 10 + (c.toNat - 48)) 0

/-- Python `int(s)` on a (digits-only) string: `none` models `ValueError`. -/
def parseNat? (s : Str) : Option Nat :=
  if s ≠ [] ∧ s.all isDigitCh then some (parseNat s) else none

/-- Python `s.rsplit("_", 1)` (split on the last underscore), returning the
pair (part before, part after).  When `s` contains no underscore the result is
`(s, [])`: Python returns the one-element list `[s]` there, so index `[0]` is
`s` and index `[1]` would raise `IndexError`; the second component is never
used on such strings by the embedded code (all registry keys are generated
with an underscore). -/
def rsplitUnder (s : Str) : Str × Str :=
  match s with
  | [] => ([], [])
  | c :: rest =>
    if '_' ∈ rest then
      ((rsplitUnder rest).1.cons c, (rsplitUnder rest).2)
    else if c = '_' then ([], rest)
    else (c :: rest, [])

/-- `i.rsplit("_", 1)[0]`: the base name of a registry key. -/
def baseOf (s : Str) : Str := (rsplitUnder s).1

/-- `i.rsplit("_", 1)[1]`: the sequence-number suffix of a registry key. -/
def seqSuffix (s : Str) : Str := (rsplitUnder s).2

/-- The sequence number of a registry key (`int(i.rsplit("_", 1)[1])`). -/
def seqOf (s : Str) : Nat := parseNat (seqSuffix s)

/-- Python `p.startswith(...)` / `i.startswith(callback.__name__)`. -/
def strStarts (p s : Str) : Bool :=
  match p, s with
  | [], _ => true
  | _ :: _, [] => false
  | a :: p', b :: s' => a = b && strStarts p' s'

/-- The literal identity separator `"__"`. -/
def sep : Str := ['_', '_']

/-- Python `s.split("__")`: non-overlapping left-to-right split on the
two-character separator. -/
def splitSep (s : Str) : List Str :=
  match s with
  | [] => [[]]
  | '_' :: '_' :: rest => [] :: splitSep rest
  | c :: rest =>
    match splitSep rest with
    | [] => [[c]]
    | p :: ps => (c :: p) :: ps

/-- A registry key `f"{name}_{seq}"`. -/
def mkKey (name : Str) (n : Nat) : Str := name ++ '_' :: natToStr n

/-- Python `max` of a list of naturals (with junk value 0 on the empty list,
on which Python `max` would raise; callers guard on non-emptiness). -/
def maxList (l : List Nat) : Nat := l.foldr max 0

-- ### Python dicts as insertion-ordered association lists
/-- First-match lookup, `d.get(k)` / `d[k]`. -/
def dGet {K V : Type} [DecidableEq K] (l : List (K × V)) (k : K) : Option V :=
  match l with
  | [] => none
  | p :: ps => if p.1 = k then some p.2 else dGet ps k

/-- `d[k] = v`: in-place update of the first matching key, append on a fresh
key — Python dict assignment semantics. -/
def dSet {K V : Type} [DecidableEq K] (l : List (K × V)) (k : K) (v : V) : List (K × V) :=
  match l with
  | [] => [(k, v)]
  | p :: ps => if p.1 = k then (k, v) :: ps else p :: dSet ps k v

/-- `del d[k]` (under the no-duplicate-keys invariant of a dict, removing
every pair with key `k` equals removing the single one). -/
def dDel {K V : Type} [DecidableEq K] (l : List (K × V)) (k : K) : List (K × V) :=
  l.filter (fun p => p.1 ≠ k)

/-- The keys of a dict, in insertion order (`list(d)` / iteration order). -/
def dKeys {K V : Type} (l : List (K × V)) : List K := l.map Prod.fst

/-- `d.setdefault`-style access of a `defaultdict`: return the stored value,
inserting (and returning) the default when the key is absent. -/
def dGetDefault {K V : Type} [DecidableEq K] (l : List (K × V)) (k : K) (v0 : V) :
    List (K × V) × V :=
  match dGet l k with
  | some v => (l, v)
  | none => (l ++ [(k, v0)], v0)

-- ### the Ordering Policy: `_cb_container._sort_cbs`
/-- Python `list.index` (with junk value `l.length` when absent, where Python
would raise `ValueError`; `_sort_cbs` only calls it on present names). -/
def idxOf (l : List Str) (a : Str) : Nat :=
  match l with
  | [] => 0
  | x :: xs => if x = a then 0 else idxOf xs a + 1

/-- Deterministic model of iterating a Python `set` built from a list: first
occurrences, in first-appearance order.  (CPython's set iteration order is
unspecified; `_sort_cbs` only relies on the set's membership, so any
deterministic order is a faithful embedding.) -/
def dedupL (l : List Str) : List Str :=
  match l with
  | [] => []
  | x :: xs => x :: (dedupL xs).filter (fun y => y ≠ x)

/-- `set(a) ^ set(b)` (symmetric difference) listed deterministically: the
elements of `a` not in `b`, then the elements of `b` not in `a`. -/
def symmDiffL (a b : List Str) : List Str :=
  a.filter (fun x => x ∉ b) ++ b.filter (fun x => x ∉ a)

/-- Stable insertion of `x` into a list sorted by `f`, placing `x` before the
first element whose key is not smaller — together with `stableSortByKey` this
is a stable sort, matching the stability guarantee of Python `sorted`. -/
def insertByKey {α : Type} (f : α → Nat) (x : α) : List α → List α
  | [] => [x]
  | y :: ys => if f y < f x then y :: insertByKey f x ys else x :: y :: ys

/-- Stable sort by a `Nat` key: the embedding of Python
`sorted(list, key=...)`. -/
def stableSortByKey {α : Type} (f : α → Nat) : List α → List α
  | [] => []
  | x :: xs => insertByKey f x (stableSortByKey f xs)

/-- `_cb_container._sort_cbs(cbs)`: sort the keys of one registry bucket by
the position of their base name in the priority list
`sortp = self._cb_list + list(set(self._cb_list) ^ cbnames)`.
The empty bucket returns the empty collection (`set()` in the source). -/
def sortCbs (cbList : List Str) (cbs : List Str) : List Str :=
  if cbs = [] then []
  else
    let cbnames := dedupL (cbs.map baseOf)
    let sortp := cbList ++ symmDiffL cbList cbnames
    stableSortByKey (fun w => idxOf sortp (baseOf w)) cbs

-- ### the Callback Registry: entries, attach, remove
/-- A stored callback entry, `partial(callback, **kwargs)`: the resolved
callback's `__name__` plus the keyword-argument names bound at attach time
(the argument values play no role in the registry bookkeeping). -/
structure Entry where
  fname : Str
  kwargs : List Str
  deriving DecidableEq

/-- One classification bucket: `base_name_sequence ↦ Entry`. -/
abbrev Bucket := List (Str × Entry)

/-- click/pick inner level: `button ↦ Bucket`. -/
abbrev DsDict := List (Nat × Bucket)

/-- click/pick registry: `"single"/"double" ↦ button ↦ Bucket`
(`self.get.cbs = defaultdict(lambda: defaultdict(dict))`). -/
abbrev ClickReg := List (Str × DsDict)

/-- keypress registry: `key ↦ Bucket` (`self.get.cbs = defaultdict(dict)`). -/
abbrev KeyReg := List (Str × Bucket)

instance : DecidableEq ClickReg := instDecidableEqList

instance : DecidableEq KeyReg := instDecidableEqList

/-- The `callback` argument of `_add_callback`: either a string naming a
pre-defined callback of the `m.cb` catalog, or an arbitrary callable carrying
its `__name__` (the source re-binds the callable to the Maps object, which
does not affect registry bookkeeping). -/
inductive CbRef where
  | byName (s : Str)
  | byFunc (fname : Str)
  deriving DecidableEq

/-- `multi_cb_functions = ["mark", "annotate"]` — the handler kinds declared
multi-attach-safe in `_click_container._add_callback`. -/
def multiCbFunctions : List Str := [sL ("mark"), sL ("annotate")]

/-- The names tested by the reserved-kwargs assertion of
`_click_container._add_callback`:
`["pos", "ID", "val", "double_click", "button"]`. -/
def reservedNames : List Str :=
  [sL ("pos"), sL ("ID"), sL ("val"), sL ("double_click"), sL ("button")]

def strSingle : Str := sL ("single")

def strDouble : Str := sL ("double")

/-- The group key selected by the `double_click` flag:
`self.get.cbs["double"] if double_click else self.get.cbs["single"]`. -/
def dsOf (dbl : Bool) : Str := if dbl then strDouble else strSingle

/-- Resolution of the `callback` argument: a string is looked up against the
catalog (`assert hasattr(self._cb, callback)` — `none` models the
`AssertionError`), a callable is used as-is. -/
def resolveCb (cbList : List Str) (cb : CbRef) : Option Str :=
  match cb with
  | .byName s => if s ∈ cbList then some s else none
  | .byFunc f => some f

/-- `ncb = [int(i.rsplit("_", 1)[1]) for i in d if i.startswith(callback.__name__)]`. -/
def ncbOf (d : Bucket) (fname : Str) : List Nat :=
  ((dKeys d).filter (fun i => strStarts fname i)).map (fun i => parseNat (seqSuffix i))

/-- `max(ncb) + 1 if len(ncb) > 0 else 0`: the sequence number assigned to a
new attach — `0` when no existing key of the bucket has the callback name as
a prefix, else one more than the largest sequence-suffix among the
prefix-matching keys. -/
def assignedSeq (d : Bucket) (fname : Str) : Nat :=
  if ncbOf d fname = [] then 0 else maxList (ncbOf d fname) + 1

/-- `cbkey = callback.__name__ + f"_{max(ncb) + 1 if len(ncb) > 0 else 0}"`. -/
def newCbKey (d : Bucket) (fname : Str) : Str := mkKey fname (assignedSeq d fname)

/-- `_click_container._add_callback`.  Returns the registry after the call
together with the result (`.ok cbname`, or `.error` for an `assert` failure;
the registry component reflects that the two `defaultdict` levels are already
created when the duplicate-attachment assertion fires). -/
def addCallbackClick (cbList : List Str) (reg : ClickReg) (cb : CbRef)
    (dbl : Bool) (button : Nat) (kwargs : List Str) : ClickReg × Except PyErr Str :=
  if reservedNames.all (fun i => decide (i ∈ kwargs)) then (reg, .error .assertionError)
  else
    match resolveCb cbList cb with
    | none => (reg, .error .assertionError)
    | some fname =>
      let ds := dsOf dbl
      let p1 := dGetDefault reg ds []
      let p2 := dGetDefault p1.2 button []
      let reg1 := dSet p1.1 ds p2.1
      let d := p2.2
      let cbkey := newCbKey d fname
      if fname ∉ multiCbFunctions ∧ ncbOf d fname ≠ [] then (reg1, .error .assertionError)
      else
        (dSet reg1 ds (dSet p2.1 button (dSet d cbkey ⟨fname, kwargs⟩)),
          .ok (cbkey ++ sep ++ ds ++ sep ++ natToStr button))

/-- `keypress_container._add_callback`.  Note: unlike the click/pick variant
it has no reserved-kwargs assertion and no multi-attach check. -/
def addCallbackKey (cbList : List Str) (reg : KeyReg) (cb : CbRef)
    (key : Str) (kwargs : List Str) : KeyReg × Except PyErr Str :=
  match resolveCb cbList cb with
  | none => (reg, .error .assertionError)
  | some fname =>
    let p := dGetDefault reg key []
    let cbkey := newCbKey p.2 fname
    (dSet p.1 key (dSet p.2 cbkey ⟨fname, kwargs⟩), .ok (cbkey ++ sep ++ key))

/-- `_click_container.remove(ID=None)`.
`name, ds, b` are assigned only under `if ID is not None`, but are read
unconditionally afterwards: the call with `ID=None` raises `NameError`.
`ID.split("__")` unpacked into three variables raises `ValueError` unless it
yields exactly three parts, and `int(b)` raises `ValueError` on a non-numeric
button part (it is only evaluated once the `ds` group was found).  The
per-kind cleanup hook (`_<fname>_cleanup`) lives on the callbacks catalog
object and does not touch the registry, so it is not modelled here. -/
def removeClick (reg : ClickReg) (ID : Option Str) : Except PyErr ClickReg :=
  match ID with
  | none => .error .nameError
  | some idStr =>
    match splitSep idStr with
    | [name, ds, b] =>
      match dGet reg ds with
      | none => .ok reg
      | some dsdict =>
        match parseNat? b with
        | none => .error .valueError
        | some bn =>
          match dGet dsdict bn with
          | none => .ok reg
          | some bdict =>
            if (dGet bdict name).isSome then
              .ok (dSet reg ds (dSet dsdict bn (dDel bdict name)))
            else .ok reg
    | _ => .error .valueError

/-- `keypress_container.remove(ID=None)`: same shape with a two-part identity
`name__key` and no integer conversion. -/
def removeKey (reg : KeyReg) (ID : Option Str) : Except PyErr KeyReg :=
  match ID with
  | none => .error .nameError
  | some idStr =>
    match splitSep idStr with
    | [name, key] =>
      match dGet reg key with
      | none => .ok reg
      | some cbs =>
        if (dGet cbs name).isSome then
          .ok (dSet reg key (dDel cbs name))
        else .ok reg
    | _ => .error .valueError

-- ### catalogs of built-in handler kinds
/-- Modelled from the spec: the catalog `_cb_list` of
`eomaps.callbacks.click_callbacks` / `pick_callbacks` (module
`eomaps.callbacks` is outside the excerpt).  The built-in click/pick handler
kinds are the ones enumerated by the `_add_callback` docstring in the source:
annotate, mark, plot, print_to_console, get_values, load, clear_annotations,
clear_markers. -/
def clickCbCatalog : List Str :=
  [sL ("annotate"), sL ("mark"), sL ("plot"), sL ("print_to_console"),
   sL ("get_values"), sL ("load"), sL ("clear_annotations"), sL ("clear_markers")]

/-- Modelled from the spec: the catalog `_cb_list` of
`eomaps.callbacks.keypress_callbacks` is outside the excerpt; the spec's
keypress example names the built-in kind `switch_layer`. -/
def keypressCbCatalog : List Str := [sL ("switch_layer")]

-- ### dispatch engines and the Forwarding Fabric
/-- The normalized event payload handed to entries:
`{pos, ID, val, ind}` (click events carry `None` for everything but `pos`;
pick events resolve all four). Coordinates are embedded as integers — the
payload is pass-through data for the registry logic. -/
structure Payload where
  pos : Option (Int × Int)
  pid : Option Int
  pval : Option Int
  pind : Option Nat
  deriving DecidableEq

/-- A raw click (`button_press_event`) as consumed by `_onclick`:
`inaxes` names the axes (= owning map) containing the pointer. -/
structure ClickEv where
  inaxes : Option Nat
  dblclick : Bool
  button : Nat
  xdata : Int
  ydata : Int
  deriving DecidableEq

/-- A raw pick event as consumed by `_onpick` (with the fields of its
originating mouse event inlined: `mxdata/mydata/minaxes` stand for
`event.mouseevent.xdata/ydata/inaxes`).  `event.ind` is embedded as a single
optional index. -/
structure PickEv where
  artist : Option Nat
  ind : Option Nat
  dblclick : Bool
  button : Nat
  mxdata : Int
  mydata : Int
  minaxes : Option Nat
  deriving DecidableEq

/-- The coordinate-reprojection primitive between two named projections
(external collaborator, spec §6): `T from to point` is
`Transformer.from_crs(from, to, always_xy=True).transform(point)`.
Projections are named by integers. -/
abbrev Transform := Int → Int → (Int × Int) → (Int × Int)

/-- A map instance, with the per-event-class callback containers inlined:
its identity, plot projection, the three registries, the `_fwd_cbs` peer
lists of the click and pick containers (the source keys `_fwd_cbs` by
`id(m)` and stores the object; the embedding stores the ids and resolves
them against the world), the current plotted collection and its parallel
data arrays, the child maps sharing its figure, and the host interaction
flags (`_draggable_axes._modifier_pressed`; toolbar in a non-idle mode). -/
structure MapsObj where
  iid : Nat
  crs : Int
  clickReg : ClickReg
  pickReg : ClickReg
  keyReg : KeyReg
  fwdClick : List Nat
  fwdPick : List Nat
  coll : Option Nat
  px : List Int
  py : List Int
  pids : List Int
  pz : List Int
  children : List Nat
  draggable : Bool
  toolbarActive : Bool
  nearest : Int × Int → Option Nat

/-- The collection of live map instances. -/
abbrev World := List MapsObj

def wGet (w : World) (i : Nat) : Option MapsObj := w.find? (fun m => m.iid = i)

/-- The payload built by `cb_click_container._get_clickdict`. -/
def clickPayload (x y : Int) : Payload := ⟨some (x, y), none, none, none⟩

/-- `cb_click_container._onclick` as an invocation trace: the entries of the
matching bucket, in `_sort_cbs` order, each invoked with the click payload.
(The `defaultdict` access `self.get.cbs["double"/"single"]` also inserts an
empty group when absent; that structural side effect does not affect which
entries run and is not tracked by the trace function.) -/
def onclickTrace (cbList : List Str) (reg : ClickReg) (ev : ClickEv) :
    List (Str × Payload) :=
  let cbs := (dGet reg (dsOf ev.dblclick)).getD []
  match dGet cbs ev.button with
  | none => []
  | some bcbs =>
    (sortCbs cbList (dKeys bcbs)).map (fun k => (k, clickPayload ev.xdata ev.ydata))

/-- `cb_click_container._fwd_cb`: replay the click into every registered
peer.  Faithful to the source, the transformer is built as
`Transformer.from_crs(m.crs_plot, self._m.crs_plot)` — i.e. *from the peer's
projection to the triggering instance's projection* — and applied to the
triggering instance's event coordinates. -/
def fwdClickTrace (cbList : List Str) (T : Transform) (w : World) (m0 : MapsObj)
    (ev : ClickEv) : List (Nat × Str × Payload) :=
  if ev.inaxes ≠ some m0.iid then []
  else
    m0.fwdClick.flatMap (fun pid =>
      match wGet w pid with
      | none => []
      | some m =>
        let q := T m.crs m0.crs (ev.xdata, ev.ydata)
        let dummy : ClickEv := ⟨some m.iid, ev.dblclick, ev.button, q.1, q.2⟩
        (onclickTrace cbList m.clickReg dummy).map (fun p => (m.iid, p.1, p.2)))

/-- The `clickcb` closure connected to `button_press_event` (on the parent
map): guard on axis-dragging and on an active toolbar mode, then run
`_onclick` followed by `_fwd_cb` on the parent and every child whose axes
contain the event. -/
def clickcbTrace (cbList : List Str) (T : Transform) (w : World) (parent : MapsObj)
    (ev : ClickEv) : List (Nat × Str × Payload) :=
  if parent.draggable then []
  else if parent.toolbarActive then []
  else
    (parent.iid :: parent.children).flatMap (fun mid =>
      match wGet w mid with
      | none => []
      | some m =>
        if ev.inaxes = some m.iid then
          (onclickTrace cbList m.clickReg ev).map (fun p => (m.iid, p.1, p.2))
            ++ fwdClickTrace cbList T w m ev
        else [])

/-- The `_onpress` closure of `keypress_container._initialize_callbacks`:
when the key has a bucket, every entry of it is invoked in plain dict
(insertion) order — no `_sort_cbs` — with payload `{key}`. -/
def onpressTrace (reg : KeyReg) (key : Str) : List (Str × Str) :=
  match dGet reg key with
  | none => []
  | some cbdict => (dKeys cbdict).map (fun name => (name, key))

/-- `cb_pick_container._get_pickdict`: `None` (no payload) when the event
carries no resolved index; otherwise the parallel arrays indexed at it.
(Out-of-range host indices are clamped by `getD`; the host always supplies
in-range indices.) -/
def getPickdict (m : MapsObj) (ev : PickEv) : Option Payload :=
  match ev.ind with
  | none => none
  | some i =>
    if ev.artist = m.coll then
      some ⟨some (m.px.getD i 0, m.py.getD i 0), some (m.pids.getD i 0),
        some (m.pz.getD i 0), some i⟩
    else none

/-- `cb_pick_container._onpick` as an invocation trace: toolbar guard, then
the artist guard (`event.artist != self._m.figure.coll`), then the sorted
bucket — but each invocation is conditional on `clickdict is not None`, so a
`None` pick-dict yields an empty trace even when entries match. -/
def onpickTrace (cbList : List Str) (m : MapsObj) (ev : PickEv) :
    List (Str × Payload) :=
  if m.toolbarActive then []
  else if ev.artist ≠ m.coll then []
  else
    let cd := getPickdict m ev
    let cbs := (dGet m.pickReg (dsOf ev.dblclick)).getD []
    match dGet cbs ev.button with
    | none => []
    | some bcbs =>
      (sortCbs cbList (dKeys bcbs)).filterMap (fun k => cd.map (fun p => (k, p)))

/-- Modelled from the spec: `Maps._pick_pixel` is not part of the excerpt.
Per spec §4.4/§4.6 it resolves the nearest data point against the instance's
own plotted collection, and "a peer with no plotted collection (for pick
forwarding) resolves to no match". -/
def pickPixel (m : MapsObj) (q : Int × Int) : Option Nat :=
  match m.coll with
  | none => none
  | some _ => m.nearest q

/-- `cb_pick_container._fwd_cb`: replay the pick into every registered peer,
re-resolving the nearest index against the peer's own collection via
`_pick_pixel`; the mouse coordinates are copied verbatim (the coordinate
transform in the source is commented out). -/
def fwdPickTrace (cbList : List Str) (w : World) (m0 : MapsObj) (ev : PickEv) :
    List (Nat × Str × Payload) :=
  if ev.minaxes ≠ some m0.iid then []
  else
    m0.fwdPick.flatMap (fun pid =>
      match wGet w pid with
      | none => []
      | some m =>
        let pind := pickPixel m (ev.mxdata, ev.mydata)
        let dummy : PickEv :=
          ⟨m.coll, pind, ev.dblclick, ev.button, ev.mxdata, ev.mydata, some m.iid⟩
        (onpickTrace cbList m dummy).map (fun p => (m.iid, p.1, p.2)))

/-- Register `m2` in the click `_fwd_cbs` dict of the instance with id `m1`
(`self._getobj(m1)._fwd_cbs[id(m2)] = m2`): inserting an existing key
overwrites in place (same object, order unchanged), a fresh key is appended. -/
def addFwdClick (w : World) (m1 m2 : Nat) : World :=
  w.map (fun m =>
    if m.iid = m1 then
      { m with fwdClick := if m2 ∈ m.fwdClick then m.fwdClick else m.fwdClick ++ [m2] }
    else m)

/-- `_cb_container.share_events(*args)` called on the click container of the
instance with id `self`: for every ordered pair `(m1, m2)` of distinct
instances of `(self._m, *args)`, register `m2` in `m1`'s forward dict
(`m1 is not m2` is id-disequality for distinct live objects). -/
def shareEventsClick (w : World) (self : Nat) (args : List Nat) : World :=
  (self :: args).foldl (fun w1 m1 =>
    (self :: args).foldl (fun w2 m2 =>
      if m1 ≠ m2 then addFwdClick w2 m1 m2 else w2) w1) w

-- ### container teardown (`cb_container._on_close`)
/-- The per-map callback container with its three event-class registries
(the `dynamic` accessor of the source holds no registry of this shape). -/
structure CbContainer where
  click : ClickReg
  pick : ClickReg
  keypress : KeyReg

/-- `_click_container._get.attached_callbacks`: `f"{name}__{ds}__{b}"` over
all groups, buttons and names. -/
def enumClick (r : ClickReg) : List Str :=
  r.flatMap (fun dsp =>
    dsp.2.flatMap (fun bp =>
      (dKeys bp.2).map (fun name => name ++ sep ++ dsp.1 ++ sep ++ natToStr bp.1)))

/-- `keypress_container._get.attached_callbacks`: `f"{name}__{key}"`. -/
def enumKey (r : KeyReg) : List Str :=
  r.flatMap (fun kp => (dKeys kp.2).map (fun name => name ++ sep ++ kp.1))

/-- `cb_container._on_close`: for each method in `self._methods` — which is
`["click", "keypress"]`; `pick` is not in the list — remove every attached
callback by its enumerated identity (the enumeration is a fresh list, so the
iteration is over a snapshot). -/
def onClose (c : CbContainer) : Except PyErr CbContainer := do
  let cl ← (enumClick c.click).foldlM (fun r k => removeClick r (some k)) c.click
  let kp ← (enumKey c.keypress).foldlM (fun r k => removeKey r (some k)) c.keypress
  pure ⟨cl, c.pick, kp⟩

-- ### concrete instances used by counterexamples and witnesses
/-- A toy reprojection primitive: translation between the origins of
integer-named projections.  `tToy c c p = p` for every `c` (identity when
source = target projection), while `tToy 0 10 ≠ tToy 10 0`: the direction of
the transform matters. -/
def tToy : Transform := fun cfrom cto p => (p.1 - cfrom + cto, p.2)

/-- Map instance `B` of the C6 scenario: projection 10, one `annotate`
callback attached on single-click button 1. -/
def mapB6 : MapsObj :=
  ⟨1, 10, (addCallbackClick clickCbCatalog [] (.byName (sL ("annotate"))) false 1 []).1,
    [], [], [], [], none, [], [], [], [], [], false, false, fun _ => none⟩

/-- Map instance `A` of the C6 scenario: projection 0, forwarding clicks to
`B`. -/
def mapA6 : MapsObj :=
  ⟨0, 0, [], [], [], [1], [], none, [], [], [], [], [], false, false, fun _ => none⟩

/-- The registry effect of a successful `_click_container.remove` parse:
find the group, find the button, delete the name if present. -/
def clickRemove (reg : ClickReg) (n d : Str) (b : Nat) : ClickReg :=
  match dGet reg d with
  | none => reg
  | some dd =>
    match dGet dd b with
    | none => reg
    | some bk => if (dGet bk n).isSome then dSet reg d (dSet dd b (dDel bk n)) else reg

/-- The registry effect of a successful `keypress_container.remove` parse. -/
def keyRemove (reg : KeyReg) (n k : Str) : KeyReg :=
  match dGet reg k with
  | none => reg
  | some bk => if (dGet bk n).isSome then dSet reg k (dDel bk n) else reg

/-- The bucket a click/pick attach targets (and `_onclick` reads):
`self.get.cbs[ds][button]`. -/
def bucketAt (reg : ClickReg) (ds : Str) (button : Nat) : Bucket :=
  (dGet ((dGet reg ds).getD []) button).getD []

/-- The registry produced by a successful click/pick attach. -/
def attachResultReg (reg : ClickReg) (ds : Str) (button : Nat) (fname : Str)
    (kwargs : List Str) : ClickReg :=
  dSet (dSet (dGetDefault reg ds []).1 ds
      (dGetDefault ((dGet reg ds).getD []) button []).1) ds
    (dSet (dGetDefault ((dGet reg ds).getD []) button []).1 button
      (dSet (bucketAt reg ds button) (newCbKey (bucketAt reg ds button) fname)
        ⟨fname, kwargs⟩))

/-- Following the spec's words for C2 — "the smallest non-negative integer
not already used for that base_name in that bucket" — as a definition, for
comparison with the code's assignment (a sequence within `0..len(d)` is
always free, so the search range suffices). -/
def specSmallestFreeSeq (d : Bucket) (base : Str) : Nat :=
  ((List.range (d.length + 1)).find? (fun m => decide (mkKey base m ∉ dKeys d))).getD 0

/-- Registry after `attach.mark()` on single-click button 1. -/
def c2regA : ClickReg :=
  (addCallbackClick clickCbCatalog [] (.byName (sL ("mark"))) false 1 []).1

/-- ... after a second `attach.mark()` (bucket `{mark_0, mark_1}`). -/
def c2regB : ClickReg :=
  (addCallbackClick clickCbCatalog c2regA (.byName (sL ("mark"))) false 1 []).1

/-- ... after `remove("mark_0__single__1")` (bucket `{mark_1}`). -/
def c2regC : ClickReg :=
  (removeClick c2regB (some (sL ("mark_0__single__1")))).toOption.getD []

/-- Keypress registry after `attach.switch_layer(key="x")`. -/
def c3kreg : KeyReg :=
  (addCallbackKey keypressCbCatalog [] (.byName (sL ("switch_layer"))) (sL ("x")) []).1

/-- Map instance `B` of the C8 scenario: no plotted collection, but an
`annotate` pick callback attached on single-click button 1. -/
def c8mapB : MapsObj :=
  ⟨1, 0, [], (addCallbackClick clickCbCatalog [] (.byName (sL ("annotate"))) false 1 []).1,
    [], [], [], none, [], [], [], [], [], false, false, fun _ => some 0⟩

/-- Map instance `A` of the C8 scenario: has a collection (artist 5) and
forwards picks to `B`. -/
def c8mapA : MapsObj :=
  ⟨0, 0, [], [], [], [], [1], some 5, [3], [4], [7], [8], [], false, false,
    fun _ => some 0⟩

-- ### Claim C1: Ordering Policy
/-- The sort key `_sort_cbs` uses: the position of the key's base name in the
priority list `sortp = self._cb_list + list(set(self._cb_list) ^ cbnames)`
derived from the bucket content `cbs`. -/
def policyIdx (cbList : List Str) (cbs : List Str) (k : Str) : Nat :=
  idxOf (cbList ++ symmDiffL cbList (dedupL (cbs.map baseOf))) (baseOf k)

/-- Keypress registry with a custom callback `zfun` attached on key "x"
before the catalog kind `switch_layer`. -/
def c1kreg : KeyReg :=
  (addCallbackKey keypressCbCatalog
    ((addCallbackKey keypressCbCatalog [] (.byFunc (sL ("zfun"))) (sL ("x")) []).1)
    (.byName (sL ("switch_layer"))) (sL ("x")) []).1

/-- Map instance of the C1 pick scenario: the two-`mark` registry `c2regB`
as its pick registry, one plotted data point, toolbar inactive. -/
def c1pmap : MapsObj :=
  ⟨0, 0, [], c2regB, [], [], [], some 0, [3], [4], [9], [7], [], false, false,
    fun _ => none⟩

/-- The pick event of the C1 scenario: artist matching the collection and a
resolved index, so the pick-dict is not `None`. -/
def c1pev : PickEv := ⟨some 0, some 0, false, 1, 5, 7, some 0⟩

/-- Map instance `A` of the C7 scenario (one `annotate` click entry). -/
def c7mapA : MapsObj :=
  ⟨0, 0, (addCallbackClick clickCbCatalog [] (.byName (sL ("annotate"))) false 1 []).1,
    [], [], [], [], none, [], [], [], [], [], false, false, fun _ => none⟩

/-- Map instance `B` of the C7 scenario (one `mark` click entry). -/
def c7mapB : MapsObj :=
  ⟨1, 10, (addCallbackClick clickCbCatalog [] (.byName (sL ("mark"))) false 1 []).1,
    [], [], [], [], none, [], [], [], [], [], false, false, fun _ => none⟩

/-- The instances of the C7 scenario by id. -/
def c7F : Nat → MapsObj := fun j => if j = 0 then c7mapA else c7mapB

-- ### Claim C9: container teardown
/-- All buckets of a click/pick registry group structure, emptied. -/
def clearDs (dd : DsDict) : DsDict := dd.map (fun bp => (bp.1, ([] : Bucket)))

/-- Well-formedness of a click/pick registry: keys are duplicate-free at every
level and every stored name round-trips through the `"__"` split of its
enumerated identity (true of every registry built by `attach`, whose names
`{cb}_{seq}` contain no `"__"`). -/
def WFClick (r : ClickReg) : Prop :=
  ((r.map Prod.fst).Nodup)
  ∧ (∀ g ∈ r, ((g.2.map Prod.fst).Nodup))
  ∧ (∀ g ∈ r, ∀ bp ∈ g.2, (dKeys bp.2).Nodup)
  ∧ (∀ g ∈ r, ∀ bp ∈ g.2, ∀ n ∈ dKeys bp.2,
      splitSep (n ++ sep ++ g.1 ++ sep ++ natToStr bp.1) = [n, g.1, natToStr bp.1])

/-- Well-formedness of a keypress registry. -/
def WFKey (r : KeyReg) : Prop :=
  ((r.map Prod.fst).Nodup)
  ∧ (∀ g ∈ r, (dKeys g.2).Nodup)
  ∧ (∀ g ∈ r, ∀ n ∈ dKeys g.2, splitSep (n ++ sep ++ g.1) = [n, g.1])

instance (r : ClickReg) : Decidable (WFClick r) := by
  unfold WFClick
  exact inferInstance

instance (r : KeyReg) : Decidable (WFKey r) := by
  unfold WFKey
  exact inferInstance

/-- The container of the C9 scenario: one `mark` click callback, one `mark`
pick callback, one `switch_layer` keypress callback. -/
def c9cont : CbContainer := ⟨c2regA, c2regA, c3kreg⟩

theorem natToStrAux_fuel : ∀ (fuel n fuel' : Nat), n < fuel → n < fuel' →
    natToStrAux fuel n = natToStrAux fuel' n := by
  intro fuel
  induction fuel with
  | zero => intro n fuel' h; omega
  | succ f ih =>
    intro n fuel' h h'
    cases fuel' with
    | zero => omega
    | succ f' =>
      rw [natToStrAux, natToStrAux]
      by_cases h10 : n < 10
      · simp [h10]
      · have hdiv : n / 10 < n := Nat.div_lt_self (by omega) (by omega)
        simp only [if_neg h10]
        rw [ih (n / 10) f' (by omega) (by omega)]

/-- The recursive unfolding of `natToStr`. -/
theorem natToStr_eq (n : Nat) :
    natToStr n = if n < 10 then [digitChar n]
      else natToStr (n / 10) ++ [digitChar (n % 10)] := by
  rw [natToStr, natToStrAux]
  by_cases h10 : n < 10
  · simp [h10]
  · have hdiv : n / 10 < n := Nat.div_lt_self (by omega) (by omega)
    simp only [if_neg h10]
    rw [natToStrAux_fuel n (n / 10) (n / 10 + 1) (by omega) (Nat.lt_succ_self _)]
    rfl

-- ### basic lemmas about the string helpers
theorem digitChar_toNat {d : Nat} (h : d < 10) : (digitChar d).toNat = 48 + d := by
  interval_cases d <;> decide

theorem digitChar_ne_under {d : Nat} (h : d < 10) : digitChar d ≠ '_' := by
  interval_cases d <;> decide

theorem digitChar_isDigit {d : Nat} (h : d < 10) : isDigitCh (digitChar d) = true := by
  interval_cases d <;> decide

theorem natToStr_ne_nil (n : Nat) : natToStr n ≠ [] := by
  rw [natToStr_eq]
  split <;> simp

theorem under_not_mem_natToStr (n : Nat) : '_' ∉ natToStr n := by
  induction n using Nat.strong_induction_on with
  | _ n ih =>
    rw [natToStr_eq]
    split
    · next h =>
      simp only [List.mem_singleton]
      exact fun hc => digitChar_ne_under h hc.symm
    · next h =>
      intro hc
      rcases List.mem_append.1 hc with h1 | h1
      · exact ih (n / 10) (Nat.div_lt_self (by omega) (by omega)) h1
      · have : ('_' : Char) = digitChar (n % 10) := List.mem_singleton.1 h1
        exact digitChar_ne_under (Nat.mod_lt _ (by omega)) this.symm

theorem natToStr_all_digits (n : Nat) : (natToStr n).all isDigitCh = true := by
  induction n using Nat.strong_induction_on with
  | _ n ih =>
    rw [natToStr_eq]
    split
    · next h => simp [digitChar_isDigit h]
    · next h =>
      rw [List.all_append, Bool.and_eq_true]
      exact ⟨ih (n / 10) (Nat.div_lt_self (by omega) (by omega)),
        by simp [digitChar_isDigit (Nat.mod_lt n (show 0 < 10 by omega))]⟩

theorem parseNat_append_digit (s : Str) (c : Char) :
    parseNat (s ++ [c]) = parseNat s * 10 + (c.toNat - 48) := by
  simp [parseNat, List.foldl_append]

theorem parseNat_natToStr (n : Nat) : parseNat (natToStr n) = n := by
  induction n using Nat.strong_induction_on with
  | _ n ih =>
    rw [natToStr_eq]
    split
    · next h =>
      simp [parseNat, digitChar_toNat h]
    · next h =>
      rw [parseNat_append_digit, ih (n / 10) (Nat.div_lt_self (by omega) (by omega)),
        digitChar_toNat (Nat.mod_lt n (by omega))]
      omega

theorem parseNat?_natToStr (n : Nat) : parseNat? (natToStr n) = some n := by
  simp [parseNat?, natToStr_ne_nil, natToStr_all_digits, parseNat_natToStr]

/-- Splitting a generated key on its last underscore recovers the name and the
digits, provided the suffix is non-empty and underscore-free. -/
theorem rsplitUnder_append {t : Str} (s : Str) (ht : '_' ∉ t) :
    rsplitUnder (s ++ '_' :: t) = (s, t) := by
  induction s with
  | nil =>
    simp [rsplitUnder, ht]
  | cons a s' ih =>
    have hmem : '_' ∈ s' ++ '_' :: t := List.mem_append.2 (Or.inr (List.mem_cons_self _ _))
    simp [rsplitUnder, hmem, ih]

theorem baseOf_mkKey (name : Str) (n : Nat) : baseOf (mkKey name n) = name := by
  simp [baseOf, mkKey, rsplitUnder_append name (under_not_mem_natToStr n)]

theorem seqSuffix_mkKey (name : Str) (n : Nat) : seqSuffix (mkKey name n) = natToStr n := by
  simp [seqSuffix, mkKey, rsplitUnder_append name (under_not_mem_natToStr n)]

theorem seqOf_mkKey (name : Str) (n : Nat) : seqOf (mkKey name n) = n := by
  simp [seqOf, seqSuffix_mkKey, parseNat_natToStr]

theorem strStarts_append (p t : Str) : strStarts p (p ++ t) = true := by
  induction p with
  | nil => rfl
  | cons a p' ih => simp [strStarts, ih]

theorem strStarts_mkKey (name : Str) (n : Nat) : strStarts name (mkKey name n) = true := by
  simpa [mkKey] using strStarts_append name ('_' :: natToStr n)

/-- The base of any key is an initial segment of the key. -/
theorem strStarts_baseOf (k : Str) : strStarts (baseOf k) k = true := by
  induction k with
  | nil => rfl
  | cons c rest ih =>
    simp only [baseOf, rsplitUnder]
    split
    · simpa [strStarts] using ih
    · split
      · rfl
      · simpa using strStarts_append (c :: rest) []

theorem dGet_dSet_self {K V : Type} [DecidableEq K] (l : List (K × V)) (k : K) (v : V) :
    dGet (dSet l k v) k = some v := by
  induction l with
  | nil => simp [dGet, dSet]
  | cons p ps ih =>
    by_cases h : p.1 = k
    · simp [dGet, dSet, h]
    · simp [dGet, dSet, h, ih]

theorem dGet_dSet_ne {K V : Type} [DecidableEq K] (l : List (K × V)) {k k' : K} (v : V)
    (h : k' ≠ k) : dGet (dSet l k v) k' = dGet l k' := by
  have hk : ¬k = k' := fun hc => h hc.symm
  induction l with
  | nil => simp [dGet, dSet, hk]
  | cons p ps ih =>
    by_cases hp : p.1 = k
    · have hp' : ¬p.1 = k' := by rw [hp]; exact hk
      simp only [dSet, if_pos hp, dGet, if_neg hk, if_neg hp']
    · by_cases hp' : p.1 = k'
      · simp only [dSet, if_neg hp, dGet, if_pos hp']
      · simp only [dSet, if_neg hp, dGet, if_neg hp', ih]

theorem dSet_dSet_self {K V : Type} [DecidableEq K] (l : List (K × V)) (k : K) (v w : V) :
    dSet (dSet l k v) k w = dSet l k w := by
  induction l with
  | nil => simp [dSet]
  | cons p ps ih =>
    by_cases h : p.1 = k
    · simp [dSet, h]
    · simp [dSet, h, ih]

theorem dSet_same {K V : Type} [DecidableEq K] {l : List (K × V)} {k : K} {v : V}
    (h : dGet l k = some v) : dSet l k v = l := by
  induction l with
  | nil => simp [dGet] at h
  | cons p ps ih =>
    obtain ⟨a, b⟩ := p
    by_cases hp : a = k
    · rw [dGet, if_pos hp] at h
      injection h with h2
      simp only at h2
      simp only [dSet, if_pos hp]
      rw [← hp, ← h2]
    · rw [dGet, if_neg hp] at h
      simp only [dSet, if_neg hp]
      exact congrArg ((a, b) :: ·) (ih h)

theorem dGet_dDel_self {K V : Type} [DecidableEq K] (l : List (K × V)) (k : K) :
    dGet (dDel l k) k = none := by
  induction l with
  | nil => rfl
  | cons p ps ih =>
    by_cases h : p.1 = k
    · rw [dDel, List.filter_cons_of_neg (by simp [h])]
      exact ih
    · rw [dDel, List.filter_cons_of_pos (by simp [h]), dGet, if_neg h]
      exact ih

theorem dDel_absent {K V : Type} [DecidableEq K] {l : List (K × V)} {k : K}
    (h : dGet l k = none) : dDel l k = l := by
  induction l with
  | nil => rfl
  | cons p ps ih =>
    by_cases hp : p.1 = k
    · rw [dGet, if_pos hp] at h
      exact absurd h (by simp)
    · rw [dGet, if_neg hp] at h
      rw [dDel, List.filter_cons_of_pos (by simp [hp])]
      exact congrArg (p :: ·) (ih h)

theorem dKeys_dSet_mem {K V : Type} [DecidableEq K] {l : List (K × V)} {k : K} (v : V)
    (h : k ∈ dKeys l) : dKeys (dSet l k v) = dKeys l := by
  induction l with
  | nil => simp [dKeys] at h
  | cons p ps ih =>
    by_cases hp : p.1 = k
    · simp [dSet, hp, dKeys]
    · have htail : k ∈ dKeys ps := by
        rcases (List.mem_cons).1 h with h1 | h1
        · exact absurd h1.symm hp
        · exact h1
      simp only [dSet, if_neg hp, dKeys, List.map_cons]
      exact congrArg (p.1 :: ·) (ih htail)

theorem dGet_of_mem_nodup {K V : Type} [DecidableEq K] {l : List (K × V)} {k : K} {v : V}
    (hnd : (dKeys l).Nodup) (h : (k, v) ∈ l) : dGet l k = some v := by
  induction l with
  | nil => simp at h
  | cons p ps ih =>
    rcases List.mem_cons.1 h with h1 | h1
    · simp [dGet, ← h1]
    · have hk : p.1 ≠ k := by
        intro hc
        have : k ∈ dKeys ps := List.mem_map.2 ⟨(k, v), h1, rfl⟩
        rw [dKeys, List.map_cons, List.nodup_cons] at hnd
        exact hnd.1 (hc ▸ this)
      have hnd' : (dKeys ps).Nodup := by
        rw [dKeys, List.map_cons, List.nodup_cons] at hnd
        exact hnd.2
      simp [dGet, hk, ih hnd' h1]

theorem dGet_none_iff_not_mem {K V : Type} [DecidableEq K] {l : List (K × V)} {k : K} :
    dGet l k = none ↔ k ∉ dKeys l := by
  induction l with
  | nil => simp [dGet, dKeys]
  | cons p ps ih =>
    rw [dGet, dKeys, List.map_cons]
    by_cases hp : p.1 = k
    · simp [hp]
    · rw [if_neg hp, List.mem_cons, ih]
      constructor
      · rintro hn (hc | hc)
        · exact hp hc.symm
        · exact hn hc
      · exact fun hn hc => hn (Or.inr hc)

theorem dSet_append_not_mem {K V : Type} [DecidableEq K] {xs : List (K × V)}
    (ys : List (K × V)) {k : K} (v : V) (h : k ∉ dKeys xs) :
    dSet (xs ++ ys) k v = xs ++ dSet ys k v := by
  induction xs with
  | nil => simp
  | cons p ps ih =>
    have hp : p.1 ≠ k := by
      intro hc
      exact h (by rw [dKeys, List.map_cons, hc]; exact List.mem_cons_self _ _)
    have h' : k ∉ dKeys ps := by
      intro hc
      exact h (by rw [dKeys, List.map_cons]; exact List.mem_cons_of_mem _ hc)
    simp [dSet, hp, ih h']

theorem mem_dedupL {l : List Str} {a : Str} : a ∈ dedupL l ↔ a ∈ l := by
  induction l with
  | nil => simp [dedupL]
  | cons x xs ih =>
    simp only [dedupL, List.mem_cons]
    constructor
    · rintro (h | h)
      · exact Or.inl h
      · exact Or.inr (ih.1 (List.mem_of_mem_filter h))
    · rintro (h | h)
      · exact Or.inl h
      · by_cases hx : a = x
        · exact Or.inl hx
        · exact Or.inr (List.mem_filter.2 ⟨ih.2 h, by simpa using hx⟩)

theorem idxOf_lt_length {l : List Str} {a : Str} (h : a ∈ l) : idxOf l a < l.length := by
  induction l with
  | nil => simp at h
  | cons x xs ih =>
    rw [idxOf]
    by_cases hx : x = a
    · simp [hx]
    · have : a ∈ xs := by
        rcases List.mem_cons.1 h with h1 | h1
        · exact absurd h1.symm hx
        · exact h1
      simp only [if_neg hx, List.length_cons]
      exact Nat.succ_lt_succ (ih this)

theorem idxOf_get {l : List Str} {a : Str} (h : a ∈ l) :
    l.get ⟨idxOf l a, idxOf_lt_length h⟩ = a := by
  induction l with
  | nil => simp at h
  | cons x xs ih =>
    by_cases hx : x = a
    · simp [idxOf, hx]
    · have hmem : a ∈ xs := by
        rcases List.mem_cons.1 h with h1 | h1
        · exact absurd h1.symm hx
        · exact h1
      have := ih hmem
      simp only [idxOf, if_neg hx]
      simpa using this

/-- Two names present in a list with equal `idxOf` are equal. -/
theorem idxOf_inj {l : List Str} {a b : Str} (ha : a ∈ l) (hb : b ∈ l)
    (h : idxOf l a = idxOf l b) : a = b := by
  have h1 := idxOf_get ha
  have h2 := idxOf_get hb
  rw [← h1, ← h2]
  congr 1
  exact Fin.ext h

theorem insertByKey_perm {α : Type} (f : α → Nat) (x : α) (l : List α) :
    List.Perm (insertByKey f x l) (x :: l) := by
  induction l with
  | nil => exact List.Perm.refl _
  | cons y ys ih =>
    rw [insertByKey]
    by_cases h : f y < f x
    · rw [if_pos h]
      exact (ih.cons y).trans (List.Perm.swap x y ys)
    · rw [if_neg h]

theorem stableSortByKey_perm {α : Type} (f : α → Nat) (l : List α) :
    List.Perm (stableSortByKey f l) l := by
  induction l with
  | nil => exact List.Perm.refl _
  | cons x xs ih =>
    exact (insertByKey_perm f x (stableSortByKey f xs)).trans (ih.cons x)

theorem mem_insertByKey {α : Type} {f : α → Nat} {x z : α} {l : List α}
    (h : z ∈ insertByKey f x l) : z = x ∨ z ∈ l := by
  have := (insertByKey_perm f x l).mem_iff.1 h
  simpa using this

/-- Inserting an element that is tie-or-greater than everything it must pass
keeps the list sorted in the strict-then-tie lexicographic sense. -/
theorem insertByKey_pairwise {α : Type} {f g : α → Nat} {x : α} {l : List α}
    (hl : l.Pairwise (fun a b => f a < f b ∨ (f a = f b ∧ g a < g b)))
    (hx : ∀ y ∈ l, f x = f y → g x < g y) :
    (insertByKey f x l).Pairwise (fun a b => f a < f b ∨ (f a = f b ∧ g a < g b)) := by
  induction l with
  | nil => exact List.pairwise_singleton _ _
  | cons y ys ih =>
    rw [insertByKey]
    by_cases h : f y < f x
    · rw [if_pos h]
      rw [List.pairwise_cons] at hl ⊢
      refine ⟨?_, ih hl.2 (fun z hz hfz => hx z (List.mem_cons_of_mem _ hz) hfz)⟩
      intro z hz
      rcases mem_insertByKey hz with rfl | hz'
      · exact Or.inl h
      · exact hl.1 z hz'
    · rw [if_neg h]
      rw [List.pairwise_cons] at hl
      rw [List.pairwise_cons]
      constructor
      · intro z hz
        rcases List.mem_cons.1 hz with rfl | hz'
        · rcases Nat.lt_or_ge (f x) (f z) with hlt | hge
          · exact Or.inl hlt
          · have heq : f x = f z := Nat.le_antisymm (Nat.le_of_not_lt h) hge
            exact Or.inr ⟨heq, hx z (List.mem_cons_self _ _) heq⟩
        · have hyz := hl.1 z hz'
          have hxy : f x ≤ f y := Nat.le_of_not_lt h
          rcases hyz with hlt | ⟨heq, hg⟩
          · exact Or.inl (Nat.lt_of_le_of_lt hxy hlt)
          · rcases Nat.lt_or_ge (f x) (f z) with hlt' | hge'
            · exact Or.inl hlt'
            · have heq' : f x = f z := Nat.le_antisymm (heq ▸ hxy) hge'
              have hxyeq : f x = f y := heq' ▸ heq.symm
              have h1 : g x < g y := hx y (List.mem_cons_self _ _) hxyeq
              exact Or.inr ⟨heq', Nat.lt_trans h1 hg⟩
      · exact List.pairwise_cons.2 hl

/-- A list whose ties (equal `f`-key) are already in strictly increasing
`g`-order sorts, under the stable sort by `f`, into a list that is sorted
lexicographically by `(f, g)`. -/
theorem stableSortByKey_pairwise_lex {α : Type} (f g : α → Nat) (l : List α)
    (h : l.Pairwise (fun a b => f a = f b → g a < g b)) :
    (stableSortByKey f l).Pairwise (fun a b => f a < f b ∨ (f a = f b ∧ g a < g b)) := by
  induction l with
  | nil => simp [stableSortByKey]
  | cons x xs ih =>
    rw [List.pairwise_cons] at h
    rw [stableSortByKey]
    refine insertByKey_pairwise (ih h.2) ?_
    intro y hy hfy
    have hmem : y ∈ xs := (stableSortByKey_perm f xs).mem_iff.1 hy
    exact h.1 y hmem hfy

-- ### claim theorems
/-- Claim C10 (confirmed): calling `remove` with its default `ID=None` does
not return as a no-op: it raises an uncaught `NameError` for every registry
state, because `name, ds, b` (resp. `name, key`) are assigned only under
`if ID is not None` but are read unconditionally afterwards — for both the
click/pick and the keypress containers. -/
theorem claim10_remove_none_raises (reg : ClickReg) (kreg : KeyReg) :
    removeClick reg none = .error .nameError ∧ removeKey kreg none = .error .nameError :=
  ⟨rfl, rfl⟩

/-- Claim C4 (code_bug): the reserved-kwargs guard of
`_click_container._add_callback` is
`assert not all(i in kwargs for i in ["pos", "ID", "val", "double_click",
"button"])`, so an attach whose extra kwargs contain the reserved name
`"pos"` (but not all five tested names) is accepted and registered — the
first two conjuncts show the call returning an identity and the entry stored
in the bucket.  Only a call carrying all five names trips the assertion
(third conjunct) — and `double_click`/`button` are bound by the named
parameters, so `**kwargs` can never contain them in a real call.  This
contradicts the claim (and the assertion's own message) that a reserved
keyword argument fails fast with no entry added. -/
theorem claim4_reserved_kwarg_accepted :
    (addCallbackClick clickCbCatalog [] (.byFunc (sL ("mycb"))) false 1 [sL ("pos")]).2
        = .ok (sL ("mycb_0__single__1"))
      ∧ dKeys ((dGet ((dGet (addCallbackClick clickCbCatalog [] (.byFunc (sL ("mycb")))
            false 1 [sL ("pos")]).1 strSingle).getD []) 1).getD [])
        = [sL ("mycb_0")]
      ∧ (addCallbackClick clickCbCatalog [] (.byFunc (sL ("mycb"))) false 1
          [sL ("pos"), sL ("ID"), sL ("val"), sL ("double_click"), sL ("button")]).2
        = .error .assertionError := by decide

/-- Claim C6 (code_bug): `cb_click_container._fwd_cb` builds
`Transformer.from_crs(m.crs_plot, self._m.crs_plot)` — peer projection as
*source*, the triggering instance's projection as *target* — and applies it
to the triggering instance's coordinates.  With A in projection 0 forwarding
x=5 to B in projection 10 under the translation transform, B's payload
position is `tToy 10 0 (5,0) = (-5,0)` (first conjunct), whereas the claimed
reprojection of A's position *into B's projection* is `tToy 0 10 (5,0) =
(15,0)` (second conjunct): the code transforms in the inverse direction. -/
theorem claim6_fwd_transform_direction :
    fwdClickTrace clickCbCatalog tToy [mapA6, mapB6] mapA6 ⟨some 0, false, 1, 5, 0⟩
        = [(1, sL ("annotate_0"), ⟨some (-5, 0), none, none, none⟩)]
      ∧ tToy mapA6.crs mapB6.crs (5, 0) = (15, 0)
      ∧ tToy mapB6.crs mapA6.crs (5, 0) = (-5, 0) := by decide

/-- On a well-formed click identity, `remove` never raises and its effect is
`clickRemove`. -/
theorem removeClick_wf (reg : ClickReg) {n d : Str} {b : Nat}
    (hn : splitSep (n ++ sep ++ d ++ sep ++ natToStr b) = [n, d, natToStr b]) :
    removeClick reg (some (n ++ sep ++ d ++ sep ++ natToStr b))
      = .ok (clickRemove reg n d b) := by
  simp only [removeClick, hn, parseNat?_natToStr]
  cases hD : dGet reg d with
  | none => simp [clickRemove, hD]
  | some dd =>
    cases hB : dGet dd b with
    | none => simp [clickRemove, hD, hB]
    | some bk =>
      by_cases hN : (dGet bk n).isSome <;> simp [clickRemove, hD, hB, hN]

/-- On a well-formed keypress identity, `remove` never raises and its effect
is `keyRemove`. -/
theorem removeKey_wf (reg : KeyReg) {n k : Str}
    (hk : splitSep (n ++ sep ++ k) = [n, k]) :
    removeKey reg (some (n ++ sep ++ k)) = .ok (keyRemove reg n k) := by
  simp only [removeKey, hk]
  cases hK : dGet reg k with
  | none => simp [keyRemove, hK]
  | some bk =>
    by_cases hN : (dGet bk n).isSome <;> simp [keyRemove, hK, hN]

theorem clickRemove_idem (reg : ClickReg) (n d : Str) (b : Nat) :
    clickRemove (clickRemove reg n d b) n d b = clickRemove reg n d b := by
  cases hD : dGet reg d with
  | none =>
    have h1 : clickRemove reg n d b = reg := by simp [clickRemove, hD]
    rw [h1, h1]
  | some dd =>
    cases hB : dGet dd b with
    | none =>
      have h1 : clickRemove reg n d b = reg := by simp [clickRemove, hD, hB]
      rw [h1, h1]
    | some bk =>
      by_cases hN : (dGet bk n).isSome
      · have h1 : clickRemove reg n d b = dSet reg d (dSet dd b (dDel bk n)) := by
          simp [clickRemove, hD, hB, hN]
        rw [h1]
        simp [clickRemove, dGet_dSet_self, dGet_dDel_self]
      · have h1 : clickRemove reg n d b = reg := by simp [clickRemove, hD, hB, hN]
        rw [h1, h1]

theorem keyRemove_idem (reg : KeyReg) (n k : Str) :
    keyRemove (keyRemove reg n k) n k = keyRemove reg n k := by
  cases hK : dGet reg k with
  | none =>
    have h1 : keyRemove reg n k = reg := by simp [keyRemove, hK]
    rw [h1, h1]
  | some bk =>
    by_cases hN : (dGet bk n).isSome
    · have h1 : keyRemove reg n k = dSet reg k (dDel bk n) := by simp [keyRemove, hK, hN]
      rw [h1]
      simp [keyRemove, dGet_dSet_self, dGet_dDel_self]
    · have h1 : keyRemove reg n k = reg := by simp [keyRemove, hK, hN]
      rw [h1, h1]

/-- Claim C5 (amended, theorem): for every *well-formed* identity string
(splitting on the literal `"__"` into exactly the classification parts the
event class expects, with a decimal button part — every identity produced by
attach is of this shape), `remove` raises no error; a second `remove` of the
same identity is a no-op on the registry produced by the first; and removing
an identity whose name is not present in its bucket (in particular any
identity absent from the registry) returns the registry unchanged.  Stated
for the click/pick container and for the keypress container. -/
theorem claim5_remove_idempotent
    (reg : ClickReg) (kreg : KeyReg) (n d k : Str) (b : Nat)
    (hn : splitSep (n ++ sep ++ d ++ sep ++ natToStr b) = [n, d, natToStr b])
    (hk : splitSep (n ++ sep ++ k) = [n, k]) :
    (removeClick reg (some (n ++ sep ++ d ++ sep ++ natToStr b))
        = .ok (clickRemove reg n d b)
      ∧ removeClick (clickRemove reg n d b) (some (n ++ sep ++ d ++ sep ++ natToStr b))
        = .ok (clickRemove reg n d b))
    ∧ (removeKey kreg (some (n ++ sep ++ k)) = .ok (keyRemove kreg n k)
      ∧ removeKey (keyRemove kreg n k) (some (n ++ sep ++ k)) = .ok (keyRemove kreg n k))
    ∧ ((∀ dd bk, dGet reg d = some dd → dGet dd b = some bk → dGet bk n = none) →
        clickRemove reg n d b = reg)
    ∧ ((∀ bk, dGet kreg k = some bk → dGet bk n = none) → keyRemove kreg n k = kreg) := by
  refine ⟨⟨removeClick_wf reg hn, ?_⟩, ⟨removeKey_wf kreg hk, ?_⟩, ?_, ?_⟩
  · rw [removeClick_wf _ hn, clickRemove_idem]
  · rw [removeKey_wf _ hk, keyRemove_idem]
  · intro habs
    cases hD : dGet reg d with
    | none => simp [clickRemove, hD]
    | some dd =>
      cases hB : dGet dd b with
      | none => simp [clickRemove, hD, hB]
      | some bk => simp [clickRemove, hD, hB, habs dd bk hD hB]
  · intro habs
    cases hK : dGet kreg k with
    | none => simp [keyRemove, hK]
    | some bk => simp [keyRemove, hK, habs bk hK]

/-- Claim C5 (counterexample): `remove` is *not* error-free for every
identity string absent from the registry.  With a single `mark` callback
attached (so that the `"single"` group exists), removing the absent identity
`"mark_0__single__x"` raises `ValueError` from `int("x")` instead of being a
no-op. -/
theorem claim5_counterexample :
    removeClick (addCallbackClick clickCbCatalog [] (.byName (sL ("mark"))) false 1 []).1
      (some (sL ("mark_0__single__x"))) = .error .valueError := by decide

/-- Witness for `claim5_remove_idempotent` at the identities
`"mark_0__single__1"` and `"zfun_0__x"` on concrete one-entry registries. -/
theorem claim5_witness :
    splitSep (sL ("mark_0") ++ sep ++ strSingle ++ sep ++ natToStr 1)
        = [sL ("mark_0"), strSingle, natToStr 1]
      ∧ splitSep (sL ("zfun_0") ++ sep ++ sL ("x")) = [sL ("zfun_0"), sL ("x")]
      ∧ removeClick
          ((addCallbackClick clickCbCatalog [] (.byName (sL ("mark"))) false 1 []).1)
          (some (sL ("mark_0") ++ sep ++ strSingle ++ sep ++ natToStr 1))
        = .ok (clickRemove
            (addCallbackClick clickCbCatalog [] (.byName (sL ("mark"))) false 1 []).1
            (sL ("mark_0")) strSingle 1) :=
  ⟨by decide, by decide,
    (claim5_remove_idempotent
      (addCallbackClick clickCbCatalog [] (.byName (sL ("mark"))) false 1 []).1
      [] (sL ("mark_0")) strSingle (sL ("x")) 1 (by decide) (by decide)).1.1⟩

-- ### Claim C2: sequence-number assignment
theorem le_maxList {l : List Nat} {x : Nat} (h : x ∈ l) : x ≤ maxList l := by
  induction l with
  | nil => simp at h
  | cons y ys ih =>
    rw [maxList, List.foldr_cons]
    rcases List.mem_cons.1 h with rfl | h1
    · exact Nat.le_max_left _ _
    · exact Nat.le_trans (ih h1) (Nat.le_max_right _ _)

theorem dSet_not_mem_append {K V : Type} [DecidableEq K] {l : List (K × V)} {k : K}
    (v : V) (h : k ∉ dKeys l) : dSet l k v = l ++ [(k, v)] := by
  induction l with
  | nil => rfl
  | cons p ps ih =>
    have hp : ¬p.1 = k := fun hc => h (by rw [dKeys, List.map_cons, hc]; exact List.mem_cons_self _ _)
    have h' : k ∉ dKeys ps := fun hc => h (by rw [dKeys, List.map_cons]; exact List.mem_cons_of_mem _ hc)
    simp [dSet, hp, ih h']

/-- The freshly generated key `name_{max+1}` (or `name_0`) is never already a
key of the bucket: an attach never silently overwrites an entry. -/
theorem newCbKey_not_mem (d : Bucket) (fname : Str) : newCbKey d fname ∉ dKeys d := by
  intro hmem
  have hstarts : strStarts fname (newCbKey d fname) = true := strStarts_mkKey _ _
  have hncb : seqOf (newCbKey d fname) ∈ ncbOf d fname := by
    rw [ncbOf]
    refine List.mem_map.2 ⟨newCbKey d fname, List.mem_filter.2 ⟨hmem, hstarts⟩, rfl⟩
  rw [newCbKey, seqOf_mkKey] at hncb
  by_cases hempty : ncbOf d fname = []
  · rw [hempty] at hncb
    simp at hncb
  · rw [assignedSeq, if_neg hempty] at hncb
    have := le_maxList hncb
    omega

theorem dGetDefault_snd {K V : Type} [DecidableEq K] (l : List (K × V)) (k : K) (v0 : V) :
    (dGetDefault l k v0).2 = (dGet l k).getD v0 := by
  rw [dGetDefault]
  cases dGet l k <;> rfl

theorem bucketAt_eq (reg : ClickReg) (ds : Str) (button : Nat) :
    (dGet ((dGet reg ds).getD []) button).getD [] = bucketAt reg ds button := rfl

theorem dGetDefault_fst_present {K V : Type} [DecidableEq K] {l : List (K × V)} {k : K}
    {v : V} (v0 : V) (h : dGet l k = some v) : (dGetDefault l k v0).1 = l := by
  rw [dGetDefault, h]

theorem attachResultReg_get (reg : ClickReg) (ds : Str) (button : Nat) (fname : Str)
    (kwargs : List Str) :
    dGet (attachResultReg reg ds button fname kwargs) ds
      = some (dSet (dGetDefault ((dGet reg ds).getD []) button []).1 button
          (dSet (bucketAt reg ds button) (newCbKey (bucketAt reg ds button) fname)
            ⟨fname, kwargs⟩)) := dGet_dSet_self _ _ _

theorem attachResultReg_bucketAt (reg : ClickReg) (ds : Str) (button : Nat)
    (fname : Str) (kwargs : List Str) :
    bucketAt (attachResultReg reg ds button fname kwargs) ds button
      = dSet (bucketAt reg ds button) (newCbKey (bucketAt reg ds button) fname)
          ⟨fname, kwargs⟩ := by
  rw [bucketAt, attachResultReg, dGet_dSet_self, Option.getD_some, dGet_dSet_self,
    Option.getD_some]

/-- Evaluation of `_click_container._add_callback` on the success path. -/
theorem addCallbackClick_ok {cbList : List Str} (reg : ClickReg) {cb : CbRef}
    {fname : Str} (dbl : Bool) (button : Nat) (kwargs : List Str)
    (hres : reservedNames.all (fun i => decide (i ∈ kwargs)) = false)
    (hcb : resolveCb cbList cb = some fname)
    (hcond : ¬(fname ∉ multiCbFunctions
      ∧ ncbOf (bucketAt reg (dsOf dbl) button) fname ≠ [])) :
    addCallbackClick cbList reg cb dbl button kwargs
      = (attachResultReg reg (dsOf dbl) button fname kwargs,
        .ok (newCbKey (bucketAt reg (dsOf dbl) button) fname
          ++ sep ++ dsOf dbl ++ sep ++ natToStr button)) := by
  simp only [addCallbackClick, hres, Bool.false_eq_true, if_false, hcb,
    dGetDefault_snd, bucketAt_eq]
  rw [if_neg hcond]
  rfl

/-- Evaluation of `_click_container._add_callback` on the duplicate-attach
failure path: the assertion fires after the two `defaultdict` levels were
created, and no entry is stored. -/
theorem addCallbackClick_err {cbList : List Str} (reg : ClickReg) {cb : CbRef}
    {fname : Str} (dbl : Bool) (button : Nat) (kwargs : List Str)
    (hres : reservedNames.all (fun i => decide (i ∈ kwargs)) = false)
    (hcb : resolveCb cbList cb = some fname)
    (hcond : fname ∉ multiCbFunctions
      ∧ ncbOf (bucketAt reg (dsOf dbl) button) fname ≠ []) :
    addCallbackClick cbList reg cb dbl button kwargs
      = (dSet (dGetDefault reg (dsOf dbl) []).1 (dsOf dbl)
          (dGetDefault ((dGet reg (dsOf dbl)).getD []) button []).1,
        .error .assertionError) := by
  simp only [addCallbackClick, hres, Bool.false_eq_true, if_false, hcb,
    dGetDefault_snd, bucketAt_eq]
  rw [if_pos hcond]

/-- Evaluation of `keypress_container._add_callback` (it has no failure path
beyond name resolution). -/
theorem addCallbackKey_ok {cbList : List Str} (kreg : KeyReg) {cb : CbRef}
    {fname : Str} (key : Str) (kwargs : List Str)
    (hcb : resolveCb cbList cb = some fname) :
    addCallbackKey cbList kreg cb key kwargs
      = (dSet (dGetDefault kreg key []).1 key
          (dSet ((dGet kreg key).getD [])
            (newCbKey ((dGet kreg key).getD []) fname) ⟨fname, kwargs⟩),
        .ok (newCbKey ((dGet kreg key).getD []) fname ++ sep ++ key)) := by
  simp only [addCallbackKey, hcb, dGetDefault_snd]

/-- Claim C2 (amended, theorem): for every attach call (click/pick and
keypress), the sequence assigned to `fname` in the target classification
bucket is `assignedSeq` — `0` when no existing key of the bucket has `fname`
as a prefix, and otherwise one more than the *maximum* sequence-suffix among
the prefix-matching keys — and the generated key `fname_{assignedSeq}` is
never already present in the bucket: an attach never silently overwrites an
existing entry, it appends the new entry to the bucket. -/
theorem claim2_sequence_assignment
    (cbList : List Str) (reg : ClickReg) (kreg : KeyReg) (cb : CbRef) (fname : Str)
    (dbl : Bool) (button : Nat) (kwargs : List Str) (key : Str)
    (hres : reservedNames.all (fun i => decide (i ∈ kwargs)) = false)
    (hcb : resolveCb cbList cb = some fname)
    (hmulti : fname ∈ multiCbFunctions
      ∨ ncbOf (bucketAt reg (dsOf dbl) button) fname = []) :
    ((addCallbackClick cbList reg cb dbl button kwargs).2
        = .ok (mkKey fname (assignedSeq (bucketAt reg (dsOf dbl) button) fname)
            ++ sep ++ dsOf dbl ++ sep ++ natToStr button)
      ∧ mkKey fname (assignedSeq (bucketAt reg (dsOf dbl) button) fname)
          ∉ dKeys (bucketAt reg (dsOf dbl) button)
      ∧ bucketAt (addCallbackClick cbList reg cb dbl button kwargs).1 (dsOf dbl) button
        = bucketAt reg (dsOf dbl) button
            ++ [(mkKey fname (assignedSeq (bucketAt reg (dsOf dbl) button) fname),
                ⟨fname, kwargs⟩)])
    ∧ ((addCallbackKey cbList kreg cb key kwargs).2
        = .ok (mkKey fname (assignedSeq ((dGet kreg key).getD []) fname) ++ sep ++ key)
      ∧ mkKey fname (assignedSeq ((dGet kreg key).getD []) fname)
          ∉ dKeys ((dGet kreg key).getD [])
      ∧ (dGet (addCallbackKey cbList kreg cb key kwargs).1 key).getD []
        = (dGet kreg key).getD []
            ++ [(mkKey fname (assignedSeq ((dGet kreg key).getD []) fname),
                ⟨fname, kwargs⟩)]) := by
  constructor
  · have hcond : ¬(fname ∉ multiCbFunctions
        ∧ ncbOf (bucketAt reg (dsOf dbl) button) fname ≠ []) := by
      rcases hmulti with h | h
      · intro hc; exact hc.1 h
      · intro hc; exact hc.2 h
    have hkey : newCbKey (bucketAt reg (dsOf dbl) button) fname
        = mkKey fname (assignedSeq (bucketAt reg (dsOf dbl) button) fname) := rfl
    have hnot := newCbKey_not_mem (bucketAt reg (dsOf dbl) button) fname
    rw [hkey] at hnot
    have hreg := addCallbackClick_ok reg dbl button kwargs hres hcb hcond
    refine ⟨?_, hnot, ?_⟩
    · rw [hreg, hkey]
    · rw [hreg]
      rw [attachResultReg_bucketAt, hkey, dSet_not_mem_append _ hnot]
  · have hkey : newCbKey ((dGet kreg key).getD []) fname
        = mkKey fname (assignedSeq ((dGet kreg key).getD []) fname) := rfl
    have hnot := newCbKey_not_mem ((dGet kreg key).getD []) fname
    rw [hkey] at hnot
    have hreg := addCallbackKey_ok kreg key kwargs hcb
    refine ⟨?_, hnot, ?_⟩
    · rw [hreg, hkey]
    · rw [hreg, dGet_dSet_self, Option.getD_some, hkey, dSet_not_mem_append _ hnot]

/-- Claim C2 (counterexample): after attach-mark, attach-mark,
remove(mark_0), the bucket holds only `mark_1`; the smallest sequence not in
use for `mark` is `0`, but a further attach assigns `mark_2` — the sequence
assigned is *not* the smallest non-negative integer not already used. -/
theorem claim2_counterexample :
    removeClick c2regB (some (sL ("mark_0__single__1"))) = .ok c2regC
      ∧ dKeys (bucketAt c2regC strSingle 1) = [sL ("mark_1")]
      ∧ specSmallestFreeSeq (bucketAt c2regC strSingle 1) (sL ("mark")) = 0
      ∧ (addCallbackClick clickCbCatalog c2regC (.byName (sL ("mark"))) false 1 []).2
          = .ok (sL ("mark_2__single__1"))
      ∧ (addCallbackClick clickCbCatalog c2regC (.byName (sL ("mark"))) false 1 []).2
          ≠ .ok (mkKey (sL ("mark"))
              (specSmallestFreeSeq (bucketAt c2regC strSingle 1) (sL ("mark")))
              ++ sep ++ strSingle ++ sep ++ natToStr 1) := by decide

/-- Witness for `claim2_sequence_assignment`, instantiated on the
counterexample registry `c2regC` (bucket `{mark_1}`), on the keypress side on
a bucket `{switch_layer_0}`: the hypotheses hold and the conclusions evaluate
as stated (`mark` gets sequence 2; `switch_layer` gets sequence 1). -/
theorem claim2_witness :
    ((reservedNames.all (fun i => decide (i ∈ ([] : List Str))) = false)
      ∧ resolveCb clickCbCatalog (.byName (sL ("mark"))) = some (sL ("mark"))
      ∧ sL ("mark") ∈ multiCbFunctions)
    ∧ ((addCallbackClick clickCbCatalog c2regC (.byName (sL ("mark"))) false 1 []).2
        = .ok (mkKey (sL ("mark"))
            (assignedSeq (bucketAt c2regC (dsOf false) 1) (sL ("mark")))
            ++ sep ++ dsOf false ++ sep ++ natToStr 1)
      ∧ mkKey (sL ("mark")) (assignedSeq (bucketAt c2regC (dsOf false) 1) (sL ("mark")))
          ∉ dKeys (bucketAt c2regC (dsOf false) 1)) :=
  ⟨⟨by decide, by decide, by decide⟩,
    (claim2_sequence_assignment clickCbCatalog c2regC [] (.byName (sL ("mark")))
      (sL ("mark")) false 1 [] (sL ("x")) (by decide) (by decide)
      (Or.inl (by decide))).1.1,
    (claim2_sequence_assignment clickCbCatalog c2regC [] (.byName (sL ("mark")))
      (sL ("mark")) false 1 [] (sL ("x")) (by decide) (by decide)
      (Or.inl (by decide))).1.2.1⟩

-- ### Claim C3: duplicate attachment of a non-multi handler kind
theorem mem_ncbOf {d : Bucket} {k : Str} (fname : Str) (hk : k ∈ dKeys d)
    (hs : strStarts fname k = true) : parseNat (seqSuffix k) ∈ ncbOf d fname :=
  List.mem_map.2 ⟨k, List.mem_filter.2 ⟨hk, hs⟩, rfl⟩

/-- Claim C3 (amended, theorem; click/pick containers): attaching a handler
kind that is not declared multi-attach-safe twice to the same classification
bucket succeeds the first time (with sequence 0), fails fast with an
`AssertionError` on the second attempt, leaves the registry unchanged by the
failed attempt, and the registry afterwards contains exactly one entry with
that base name in the bucket. -/
theorem claim3_duplicate_attach
    (cbList : List Str) (reg : ClickReg) (cb : CbRef) (fname : Str) (dbl : Bool)
    (button : Nat) (kwargs : List Str)
    (hres : reservedNames.all (fun i => decide (i ∈ kwargs)) = false)
    (hcb : resolveCb cbList cb = some fname)
    (hnm : fname ∉ multiCbFunctions)
    (hncb0 : ncbOf (bucketAt reg (dsOf dbl) button) fname = []) :
    (addCallbackClick cbList reg cb dbl button kwargs).2
        = .ok (mkKey fname 0 ++ sep ++ dsOf dbl ++ sep ++ natToStr button)
      ∧ (addCallbackClick cbList
            (addCallbackClick cbList reg cb dbl button kwargs).1 cb dbl button kwargs).2
        = .error .assertionError
      ∧ (addCallbackClick cbList
            (addCallbackClick cbList reg cb dbl button kwargs).1 cb dbl button kwargs).1
        = (addCallbackClick cbList reg cb dbl button kwargs).1
      ∧ (bucketAt (addCallbackClick cbList reg cb dbl button kwargs).1 (dsOf dbl)
            button).countP (fun p => decide (baseOf p.1 = fname)) = 1 := by
  have hcond : ¬(fname ∉ multiCbFunctions
      ∧ ncbOf (bucketAt reg (dsOf dbl) button) fname ≠ []) := fun hc => hc.2 hncb0
  have h1 := addCallbackClick_ok reg dbl button kwargs hres hcb hcond
  have hseq : assignedSeq (bucketAt reg (dsOf dbl) button) fname = 0 := by
    rw [assignedSeq, if_pos hncb0]
  have hkey : newCbKey (bucketAt reg (dsOf dbl) button) fname = mkKey fname 0 := by
    rw [newCbKey, hseq]
  have hfst : (addCallbackClick cbList reg cb dbl button kwargs).1
      = attachResultReg reg (dsOf dbl) button fname kwargs := by rw [h1]
  have hnot := newCbKey_not_mem (bucketAt reg (dsOf dbl) button) fname
  have hbucket1 : bucketAt (attachResultReg reg (dsOf dbl) button fname kwargs)
      (dsOf dbl) button
      = bucketAt reg (dsOf dbl) button ++ [(mkKey fname 0, ⟨fname, kwargs⟩)] := by
    rw [attachResultReg_bucketAt, dSet_not_mem_append _ hnot, hkey]
  have hkmem : mkKey fname 0
      ∈ dKeys (bucketAt (attachResultReg reg (dsOf dbl) button fname kwargs)
        (dsOf dbl) button) := by
    rw [hbucket1, dKeys, List.map_append]
    exact List.mem_append.2 (Or.inr (List.mem_singleton.2 rfl))
  have hne : ncbOf (bucketAt (attachResultReg reg (dsOf dbl) button fname kwargs)
      (dsOf dbl) button) fname ≠ [] :=
    List.ne_nil_of_mem (mem_ncbOf fname hkmem (strStarts_mkKey fname 0))
  have h2 := addCallbackClick_err
    (attachResultReg reg (dsOf dbl) button fname kwargs) dbl button kwargs hres hcb
    ⟨hnm, hne⟩
  have hds := attachResultReg_get reg (dsOf dbl) button fname kwargs
  have hdd : dGet (dSet (dGetDefault ((dGet reg (dsOf dbl)).getD []) button []).1 button
      (dSet (bucketAt reg (dsOf dbl) button)
        (newCbKey (bucketAt reg (dsOf dbl) button) fname) ⟨fname, kwargs⟩)) button
      = some (dSet (bucketAt reg (dsOf dbl) button)
          (newCbKey (bucketAt reg (dsOf dbl) button) fname) ⟨fname, kwargs⟩) :=
    dGet_dSet_self _ _ _
  refine ⟨by rw [h1, hkey], ?_, ?_, ?_⟩
  · rw [hfst, h2]
  · rw [hfst, h2]
    rw [dGetDefault_fst_present _ hds, hds, Option.getD_some,
      dGetDefault_fst_present _ hdd, dSet_same hds]
  · rw [hfst, hbucket1, List.countP_append]
    have hz : (bucketAt reg (dsOf dbl) button).countP
        (fun p => decide (baseOf p.1 = fname)) = 0 := by
      rw [List.countP_eq_zero]
      intro p hp
      simp only [decide_eq_true_eq]
      intro hbase
      have hks : strStarts fname p.1 = true := by
        have := strStarts_baseOf p.1
        rwa [hbase] at this
      have hpmem : p.1 ∈ dKeys (bucketAt reg (dsOf dbl) button) :=
        List.mem_map.2 ⟨p, hp, rfl⟩
      have := mem_ncbOf fname hpmem hks
      rw [hncb0] at this
      simp at this
    rw [hz]
    simp [baseOf_mkKey]

/-- Claim C3 (counterexample): for the *keypress* event class the duplicate
check does not exist — attaching the non-multi-attach kind `switch_layer`
twice to the same key bucket succeeds on the second attempt and the bucket
afterwards holds two entries, contradicting the claim for "every event
class". -/
theorem claim3_counterexample :
    sL ("switch_layer") ∉ multiCbFunctions
      ∧ (addCallbackKey keypressCbCatalog c3kreg (.byName (sL ("switch_layer")))
          (sL ("x")) []).2 = .ok (sL ("switch_layer_1__x"))
      ∧ dKeys ((dGet (addCallbackKey keypressCbCatalog c3kreg
            (.byName (sL ("switch_layer"))) (sL ("x")) []).1 (sL ("x"))).getD [])
        = [sL ("switch_layer_0"), sL ("switch_layer_1")] := by decide

/-- Witness for `claim3_duplicate_attach`: attaching the non-multi catalog
kind `plot` twice on single-click button 1 of an empty registry. -/
theorem claim3_witness :
    (reservedNames.all (fun i => decide (i ∈ ([] : List Str))) = false
      ∧ resolveCb clickCbCatalog (.byName (sL ("plot"))) = some (sL ("plot"))
      ∧ sL ("plot") ∉ multiCbFunctions
      ∧ ncbOf (bucketAt ([] : ClickReg) (dsOf false) 1) (sL ("plot")) = [])
    ∧ ((addCallbackClick clickCbCatalog
          (addCallbackClick clickCbCatalog [] (.byName (sL ("plot"))) false 1 []).1
          (.byName (sL ("plot"))) false 1 []).2 = .error .assertionError
      ∧ (bucketAt (addCallbackClick clickCbCatalog [] (.byName (sL ("plot")))
            false 1 []).1 (dsOf false) 1).countP
          (fun p => decide (baseOf p.1 = sL ("plot"))) = 1) :=
  ⟨⟨by decide, by decide, by decide, by decide⟩,
    (claim3_duplicate_attach clickCbCatalog [] (.byName (sL ("plot"))) (sL ("plot"))
      false 1 [] (by decide) (by decide) (by decide) (by decide)).2.1,
    (claim3_duplicate_attach clickCbCatalog [] (.byName (sL ("plot"))) (sL ("plot"))
      false 1 [] (by decide) (by decide) (by decide) (by decide)).2.2.2⟩

-- ### Claim C8: pick forwarding to a peer with no resolved data point
/-- Claim C8 (amended, theorem): when the dummy pick event that
`cb_pick_container._fwd_cb` builds for a peer carries no resolved index — in
particular when the peer has no plotted collection, so that `_pick_pixel`
resolves "no match" — the peer's matching entries are *not* invoked at all:
`_get_pickdict` returns `None` and the invocation inside `_onpick` is guarded
by `if clickdict is not None`, so every entry is skipped silently; the
invocation trace is empty and no error is raised. -/
theorem claim8_no_match_skips_invocations (cbList : List Str) (m : MapsObj)
    (dbl : Bool) (button : Nat) (mx my : Int) (hc : m.coll = none) :
    onpickTrace cbList m
      ⟨m.coll, pickPixel m (mx, my), dbl, button, mx, my, some m.iid⟩ = [] := by
  have hpp : pickPixel m (mx, my) = none := by simp [pickPixel, hc]
  rw [onpickTrace]
  by_cases ht : m.toolbarActive
  · rw [if_pos ht]
  · rw [if_neg ht]
    simp only [ne_eq, not_true_eq_false, if_false]
    cases dGet ((dGet m.pickReg (dsOf dbl)).getD []) button with
    | none => rfl
    | some bcbs => simp [getPickdict, hpp]

/-- Claim C8 (counterexample): `B` has a matching pick entry
(`annotate_0` on single-click button 1), yet forwarding a pick from `A` to
`B` — which has no plotted collection, hence resolves no nearest point —
produces an *empty* invocation trace: the entry is not invoked with a
null-field payload as the claim states; it is not invoked at all. -/
theorem claim8_counterexample :
    dKeys (bucketAt c8mapB.pickReg strSingle 1) = [sL ("annotate_0")]
      ∧ fwdPickTrace clickCbCatalog [c8mapA, c8mapB] c8mapA
          ⟨some 5, some 0, false, 1, 3, 4, some 0⟩ = [] := by decide

/-- Witness for `claim8_no_match_skips_invocations` on the concrete peer
`c8mapB`. -/
theorem claim8_witness :
    c8mapB.coll = none
      ∧ onpickTrace clickCbCatalog c8mapB
          ⟨c8mapB.coll, pickPixel c8mapB (3, 4), false, 1, 3, 4, some c8mapB.iid⟩ = [] :=
  ⟨rfl, claim8_no_match_skips_invocations clickCbCatalog c8mapB false 1 3 4 rfl⟩

theorem baseOf_mem_sortp {cbList cbs : List Str} {k : Str} (hk : k ∈ cbs) :
    baseOf k ∈ cbList ++ symmDiffL cbList (dedupL (cbs.map baseOf)) := by
  by_cases hc : baseOf k ∈ cbList
  · exact List.mem_append.2 (Or.inl hc)
  · refine List.mem_append.2 (Or.inr ?_)
    rw [symmDiffL]
    refine List.mem_append.2 (Or.inr (List.mem_filter.2 ⟨?_, by simpa using hc⟩))
    exact mem_dedupL.2 (List.mem_map.2 ⟨k, hk, rfl⟩)

/-- `_sort_cbs` permutes the bucket's keys and sorts them by the position of
their base name in the extended priority list, ties (equal base name) broken
by ascending sequence — provided the bucket lists same-base keys in
ascending-sequence order (which holds for every bucket built by attach,
since a new sequence exceeds every surviving one of the same base name). -/
theorem sortCbs_sorted (cbList : List Str) (cbs : List Str)
    (hseq : cbs.Pairwise (fun a b => baseOf a = baseOf b → seqOf a < seqOf b)) :
    List.Perm (sortCbs cbList cbs) cbs
      ∧ (sortCbs cbList cbs).Pairwise (fun a b =>
          policyIdx cbList cbs a < policyIdx cbList cbs b
          ∨ (baseOf a = baseOf b ∧ seqOf a < seqOf b)) := by
  by_cases hnil : cbs = []
  · subst hnil
    constructor
    · exact List.Perm.refl _
    · simp [sortCbs]
  · have hinj : ∀ a ∈ cbs, ∀ b ∈ cbs,
        policyIdx cbList cbs a = policyIdx cbList cbs b → baseOf a = baseOf b :=
      fun a ha b hb hf =>
        idxOf_inj (baseOf_mem_sortp ha) (baseOf_mem_sortp hb) hf
    have hsort : sortCbs cbList cbs
        = stableSortByKey (fun w => policyIdx cbList cbs w) cbs := by
      rw [sortCbs, if_neg hnil]
      rfl
    have hperm : List.Perm (sortCbs cbList cbs) cbs := by
      rw [hsort]; exact stableSortByKey_perm _ _
    refine ⟨hperm, ?_⟩
    have hseq' : cbs.Pairwise (fun a b =>
        policyIdx cbList cbs a = policyIdx cbList cbs b → seqOf a < seqOf b) :=
      hseq.imp_of_mem (fun ha hb hR hfeq => hR (hinj _ ha _ hb hfeq))
    have hlex := stableSortByKey_pairwise_lex (fun w => policyIdx cbList cbs w)
      seqOf cbs hseq'
    rw [← hsort] at hlex
    refine hlex.imp_of_mem (fun ha hb hR => ?_)
    rcases hR with h | ⟨heq, hg⟩
    · exact Or.inl h
    · exact Or.inr ⟨hinj _ (hperm.mem_iff.1 ha) _ (hperm.mem_iff.1 hb) heq, hg⟩

/-- The name trace of a resolved pick dispatch: `filterMap` of an
everywhere-`some` payload attachment keeps every key. -/
theorem filterMap_somePair (pl : Payload) : ∀ l : List Str,
    (l.filterMap (fun k => some (k, pl))).map Prod.fst = l := by
  intro l
  induction l with
  | nil => rfl
  | cons x xs ih => simp [List.filterMap_cons, ih]

/-- Claim C1 (amended, theorem): for a click dispatch cycle, and for a pick
dispatch cycle whose pick-dict resolves (so the entries are invoked at all),
the invoked entries are exactly the matching bucket's entries, in `_sort_cbs`
order: sorted by the position of their base name in the canonical catalog
list extended with the non-catalog names, ties (same base name) broken by
ascending sequence — given that each bucket lists same-base keys in
ascending-sequence insertion order, as every bucket built by attach does.
(The keypress dispatch does *not* use this Ordering Policy; see the
counterexample.) -/
theorem claim1_click_pick_ordering (cbList : List Str) (reg : ClickReg)
    (ev : ClickEv) (bcbs : Bucket) (m : MapsObj) (pev : PickEv) (pcbs : Bucket)
    (pl : Payload)
    (hb : dGet ((dGet reg (dsOf ev.dblclick)).getD []) ev.button = some bcbs)
    (hseq : (dKeys bcbs).Pairwise (fun a b => baseOf a = baseOf b → seqOf a < seqOf b))
    (htool : m.toolbarActive = false)
    (hart : pev.artist = m.coll)
    (hpb : dGet ((dGet m.pickReg (dsOf pev.dblclick)).getD []) pev.button = some pcbs)
    (hcd : getPickdict m pev = some pl)
    (hpseq : (dKeys pcbs).Pairwise (fun a b => baseOf a = baseOf b → seqOf a < seqOf b)) :
    ((onclickTrace cbList reg ev).map Prod.fst = sortCbs cbList (dKeys bcbs)
      ∧ List.Perm ((onclickTrace cbList reg ev).map Prod.fst) (dKeys bcbs)
      ∧ ((onclickTrace cbList reg ev).map Prod.fst).Pairwise (fun a b =>
          policyIdx cbList (dKeys bcbs) a < policyIdx cbList (dKeys bcbs) b
          ∨ (baseOf a = baseOf b ∧ seqOf a < seqOf b)))
    ∧ ((onpickTrace cbList m pev).map Prod.fst = sortCbs cbList (dKeys pcbs)
      ∧ List.Perm ((onpickTrace cbList m pev).map Prod.fst) (dKeys pcbs)
      ∧ ((onpickTrace cbList m pev).map Prod.fst).Pairwise (fun a b =>
          policyIdx cbList (dKeys pcbs) a < policyIdx cbList (dKeys pcbs) b
          ∨ (baseOf a = baseOf b ∧ seqOf a < seqOf b))) := by
  constructor
  · have htr : (onclickTrace cbList reg ev).map Prod.fst
        = sortCbs cbList (dKeys bcbs) := by
      rw [onclickTrace]
      simp only [hb, List.map_map]
      have : (Prod.fst ∘ fun k : Str => (k, clickPayload ev.xdata ev.ydata)) = id := rfl
      rw [this, List.map_id]
    have hs := sortCbs_sorted cbList (dKeys bcbs) hseq
    exact ⟨htr, htr ▸ hs.1, htr ▸ hs.2⟩
  · have htr : (onpickTrace cbList m pev).map Prod.fst
        = sortCbs cbList (dKeys pcbs) := by
      rw [onpickTrace, if_neg (by simp [htool]),
        if_neg (show ¬(pev.artist ≠ m.coll) from fun h => h hart)]
      simp only [hcd, hpb, Option.map_some']
      exact filterMap_somePair pl (sortCbs cbList (dKeys pcbs))
    have hs := sortCbs_sorted cbList (dKeys pcbs) hpseq
    exact ⟨htr, htr ▸ hs.1, htr ▸ hs.2⟩

/-- Claim C1 (counterexample): keypress entries do *not* run in
Ordering-Policy order.  `_onpress` iterates the bucket in plain dict
(insertion) order: with `zfun` attached before the catalog kind
`switch_layer`, the dispatch runs `zfun_0` first, while the Ordering Policy
(`_sort_cbs`) would put the catalog kind `switch_layer_0` first. -/
theorem claim1_counterexample :
    (onpressTrace c1kreg (sL ("x"))).map Prod.fst
        = [sL ("zfun_0"), sL ("switch_layer_0")]
      ∧ sortCbs keypressCbCatalog (dKeys ((dGet c1kreg (sL ("x"))).getD []))
        = [sL ("switch_layer_0"), sL ("zfun_0")]
      ∧ (onpressTrace c1kreg (sL ("x"))).map Prod.fst
        ≠ sortCbs keypressCbCatalog (dKeys ((dGet c1kreg (sL ("x"))).getD [])) := by
  decide

/-- Witness for `claim1_click_pick_ordering` on the bucket `{mark_0, mark_1}`
of `c2regB`, exercised both as a click registry and (through `c1pmap`) as a
pick registry with a resolved pick-dict. -/
theorem claim1_witness :
    (dGet ((dGet c2regB (dsOf false)).getD []) 1 = some (bucketAt c2regB strSingle 1)
      ∧ (dKeys (bucketAt c2regB strSingle 1)).Pairwise
          (fun a b => baseOf a = baseOf b → seqOf a < seqOf b)
      ∧ c1pmap.toolbarActive = false
      ∧ c1pev.artist = c1pmap.coll
      ∧ dGet ((dGet c1pmap.pickReg (dsOf c1pev.dblclick)).getD []) c1pev.button
          = some (bucketAt c2regB strSingle 1)
      ∧ getPickdict c1pmap c1pev = some ⟨some (3, 4), some 9, some 7, some 0⟩)
    ∧ (onclickTrace clickCbCatalog c2regB ⟨some 0, false, 1, 5, 7⟩).map Prod.fst
        = sortCbs clickCbCatalog (dKeys (bucketAt c2regB strSingle 1))
    ∧ (onpickTrace clickCbCatalog c1pmap c1pev).map Prod.fst
        = sortCbs clickCbCatalog (dKeys (bucketAt c2regB strSingle 1)) :=
  ⟨⟨by decide, by decide, by decide, by decide, by decide, by decide⟩,
    (claim1_click_pick_ordering clickCbCatalog c2regB ⟨some 0, false, 1, 5, 7⟩
      (bucketAt c2regB strSingle 1) c1pmap c1pev (bucketAt c2regB strSingle 1)
      ⟨some (3, 4), some 9, some 7, some 0⟩
      (by decide) (by decide) (by decide) (by decide) (by decide) (by decide)
      (by decide)).1.1,
    (claim1_click_pick_ordering clickCbCatalog c2regB ⟨some 0, false, 1, 5, 7⟩
      (bucketAt c2regB strSingle 1) c1pmap c1pev (bucketAt c2regB strSingle 1)
      ⟨some (3, 4), some 9, some 7, some 0⟩
      (by decide) (by decide) (by decide) (by decide) (by decide) (by decide)
      (by decide)).2.1⟩

-- ### Claim C7: share_events and exactly-once fan-out
theorem wGet_iid {w : World} {j : Nat} {m : MapsObj} (h : wGet w j = some m) :
    m.iid = j := by
  have := List.find?_some h
  simpa using this

theorem wGet_map_iid (w : World) (f : MapsObj → MapsObj)
    (hf : ∀ m, (f m).iid = m.iid) (j : Nat) :
    wGet (w.map f) j = (wGet w j).map f := by
  induction w with
  | nil => rfl
  | cons m ms ih =>
    rw [List.map_cons]
    by_cases hm : m.iid = j
    · rw [wGet, List.find?_cons_of_pos _ (by simp [hf, hm]), wGet,
        List.find?_cons_of_pos _ (by simp [hm])]
      rfl
    · rw [wGet, List.find?_cons_of_neg _ (by simp [hf, hm]), wGet,
        List.find?_cons_of_neg _ (by simp [hm])]
      exact ih

theorem fwdUpd_iid (m2 : Nat) (m : MapsObj) :
    ({ m with fwdClick := if m2 ∈ m.fwdClick then m.fwdClick
        else m.fwdClick ++ [m2] } : MapsObj).iid = m.iid := rfl

theorem wGet_addFwdClick_ne (w : World) (m1 m2 j : Nat) (h : j ≠ m1) :
    wGet (addFwdClick w m1 m2) j = wGet w j := by
  rw [addFwdClick, wGet_map_iid _ _ (fun m => by split <;> rfl)]
  cases hj : wGet w j with
  | none => rfl
  | some m =>
    have hij : m.iid = j := wGet_iid hj
    have hne : ¬m.iid = m1 := by rw [hij]; exact h
    simp [hne]

theorem wGet_addFwdClick_self {w : World} {m1 : Nat} {m : MapsObj} (m2 : Nat)
    (h : wGet w m1 = some m) :
    wGet (addFwdClick w m1 m2) m1
      = some { m with fwdClick := if m2 ∈ m.fwdClick then m.fwdClick
          else m.fwdClick ++ [m2] } := by
  rw [addFwdClick, wGet_map_iid _ _ (fun m => by split <;> rfl), h]
  have hij : m.iid = m1 := wGet_iid h
  simp [hij]

/-- The inner loop of `share_events` for a fixed `m1`: other instances are
untouched. -/
theorem innerFold_other (l : List Nat) (w : World) (m1 j : Nat) (h : j ≠ m1) :
    wGet (l.foldl (fun w2 m2 => if m1 ≠ m2 then addFwdClick w2 m1 m2 else w2) w) j
      = wGet w j := by
  induction l generalizing w with
  | nil => rfl
  | cons x l' ih =>
    rw [List.foldl_cons]
    by_cases hx : m1 ≠ x
    · rw [if_pos hx, ih, wGet_addFwdClick_ne _ _ _ _ h]
    · rw [if_neg hx, ih]

/-- The inner loop of `share_events` for a fixed `m1` appends every element
of the iterated list other than `m1` itself to `m1`'s forward list (assuming
no duplicates and no prior registration). -/
theorem innerFold_fwd (l : List Nat) (w : World) (m1 : Nat) (m : MapsObj)
    (hm : wGet w m1 = some m) (hnd : l.Nodup) (hdis : ∀ x ∈ l, x ∉ m.fwdClick) :
    wGet (l.foldl (fun w2 m2 => if m1 ≠ m2 then addFwdClick w2 m1 m2 else w2) w) m1
      = some { m with fwdClick := m.fwdClick ++ l.filter (fun x => x ≠ m1) } := by
  induction l generalizing w m with
  | nil => simpa using hm
  | cons x l' ih =>
    rw [List.foldl_cons, List.nodup_cons] at *
    by_cases hx : m1 ≠ x
    · rw [if_pos hx]
      have hxm : x ∉ m.fwdClick := hdis x (List.mem_cons_self _ _)
      have hw' := wGet_addFwdClick_self x hm
      rw [if_neg hxm] at hw'
      have hdis' : ∀ y ∈ l', y ∉ m.fwdClick ++ [x] := by
        intro y hy hc
        rcases List.mem_append.1 hc with hc | hc
        · exact hdis y (List.mem_cons_of_mem _ hy) hc
        · exact hnd.1 (List.mem_singleton.1 hc ▸ hy)
      have := ih _ _ hw' hnd.2 hdis'
      rw [this]
      have hfx : (x :: l').filter (fun y => y ≠ m1) = x :: l'.filter (fun y => y ≠ m1) := by
        rw [List.filter_cons_of_pos (by simpa using fun hc => hx hc.symm)]
      rw [hfx]
      simp [List.append_assoc]
    · rw [if_neg hx]
      push_neg at hx
      have hfx : (x :: l').filter (fun y => y ≠ m1) = l'.filter (fun y => y ≠ m1) := by
        rw [List.filter_cons_of_neg (by simpa using hx.symm)]
      rw [hfx]
      exact ih _ _ hm hnd.2 (fun y hy => hdis y (List.mem_cons_of_mem _ hy))

/-- The outer loop of `share_events`: every iterated instance `j` ends up
with forward list `S.filter (· ≠ j)` (starting from empty forward lists),
and instances outside the iterated list are untouched. -/
theorem outerFold_fwd (S : List Nat) (M : List Nat) (w : World)
    (hndS : S.Nodup) (hndM : M.Nodup)
    (hpre : ∀ j ∈ M, ∃ m, wGet w j = some m ∧ m.fwdClick = []) :
    (∀ j ∈ M, ∃ m, wGet w j = some m ∧ m.fwdClick = [] ∧
        wGet (M.foldl (fun w1 m1 =>
            S.foldl (fun w2 m2 => if m1 ≠ m2 then addFwdClick w2 m1 m2 else w2) w1) w) j
          = some { m with fwdClick := S.filter (fun x => x ≠ j) })
    ∧ (∀ j, j ∉ M →
        wGet (M.foldl (fun w1 m1 =>
            S.foldl (fun w2 m2 => if m1 ≠ m2 then addFwdClick w2 m1 m2 else w2) w1) w) j
          = wGet w j) := by
  induction M generalizing w with
  | nil => exact ⟨by simp, fun j _ => rfl⟩
  | cons m1 M' ih =>
    rw [List.nodup_cons] at hndM
    obtain ⟨m, hm, hmf⟩ := hpre m1 (List.mem_cons_self _ _)
    have hw1 := innerFold_fwd S w m1 m hm hndS (by rw [hmf]; intro x _ hc; simp at hc)
    rw [hmf, List.nil_append] at hw1
    have hpre' : ∀ j ∈ M', ∃ m', wGet (S.foldl (fun w2 m2 =>
        if m1 ≠ m2 then addFwdClick w2 m1 m2 else w2) w) j = some m'
        ∧ m'.fwdClick = [] := by
      intro j hj
      obtain ⟨m', hm', hmf'⟩ := hpre j (List.mem_cons_of_mem _ hj)
      have hne : j ≠ m1 := fun hc => hndM.1 (hc ▸ hj)
      exact ⟨m', by rw [innerFold_other _ _ _ _ hne]; exact hm', hmf'⟩
    obtain ⟨ihin, ihout⟩ := ih _ hndM.2 hpre'
    rw [List.foldl_cons]
    constructor
    · intro j hj
      rcases List.mem_cons.1 hj with rfl | hj'
      · refine ⟨m, hm, hmf, ?_⟩
        rw [ihout j hndM.1, hw1]
      · obtain ⟨m', hm', hmf', hres⟩ := ihin j hj'
        have hne : j ≠ m1 := fun hc => hndM.1 (hc ▸ hj')
        refine ⟨m', ?_, hmf', hres⟩
        rw [innerFold_other _ _ _ _ hne] at hm'
        exact hm'
    · intro j hj
      have hj1 : j ∉ M' := fun hc => hj (List.mem_cons_of_mem _ hc)
      have hjm : j ≠ m1 := fun hc => hj (hc ▸ List.mem_cons_self _ _)
      rw [ihout j hj1, innerFold_other _ _ _ _ hjm]

theorem flatMap_congr {α β : Type} {l : List α} {f g : α → List β}
    (h : ∀ x ∈ l, f x = g x) : l.flatMap f = l.flatMap g := by
  induction l with
  | nil => rfl
  | cons x l' ih =>
    rw [List.flatMap_cons, List.flatMap_cons, h x (List.mem_cons_self _ _),
      ih (fun y hy => h y (List.mem_cons_of_mem _ hy))]

theorem flatMap_nil_fun {α β : Type} (l : List α) :
    (l.flatMap (fun _ => ([] : List β))) = [] := by
  induction l with
  | nil => rfl
  | cons x l' ih => rw [List.flatMap_cons, ih]; rfl

theorem flatMap_single {α β : Type} [DecidableEq α] {l : List α} {j : α}
    (hnd : l.Nodup) (hj : j ∈ l) (g : α → List β) :
    (l.flatMap (fun x => if x = j then g x else [])) = g j := by
  induction l with
  | nil => simp at hj
  | cons x l' ih =>
    rw [List.nodup_cons] at hnd
    rcases List.mem_cons.1 hj with rfl | hj'
    · rw [List.flatMap_cons, if_pos rfl]
      have hz : ∀ y ∈ l', (if y = j then g y else []) = ([] : List β) := by
        intro y hy
        refine if_neg ?_
        intro hc
        exact hnd.1 (hc ▸ hy)
      rw [flatMap_congr hz, flatMap_nil_fun, List.append_nil]
    · have hx : x ≠ j := by
        intro hc
        exact hnd.1 (hc.symm ▸ hj')
      rw [List.flatMap_cons, if_neg hx, List.nil_append, ih hnd.2 hj']

theorem filter_flatMap {α β : Type} (p : β → Bool) (f : α → List β) (l : List α) :
    (l.flatMap f).filter p = l.flatMap (fun x => (f x).filter p) := by
  induction l with
  | nil => rfl
  | cons x l' ih => rw [List.flatMap_cons, List.flatMap_cons, List.filter_append, ih]

theorem filter_tag (i j : Nat) (X : List (Str × Payload)) :
    (X.map (fun p => (i, p.1, p.2))).filter (fun q => decide (q.1 = j))
      = if i = j then X.map (fun p => (i, p.1, p.2)) else [] := by
  induction X with
  | nil => simp
  | cons a X' ih =>
    rw [List.map_cons, List.filter_cons]
    by_cases hij : i = j
    · rw [ih, if_pos hij]
      simp [hij]
    · rw [ih, if_neg hij]
      simp [hij]

/-- Claim C7 (theorem): after `share_events` on the set `{self} ∪ args` of
distinct instances with initially empty forward lists, (a) forwarding is
registered in both directions between every ordered pair of distinct
instances of the set, and (b) a single host click event on any instance
`tid` of the set invokes each instance's matching entries exactly once:
the dispatch trace is the trigger's own sorted invocations followed by one
replay per peer, and its restriction to any instance `j` of the set is
exactly `j`'s own single batch of invocations (no double invocation, no
missed instance).  Scenario hypotheses: each instance is its own parent
(no children), no axis-drag or toolbar mode is active, and the event lies
in `tid`'s axes.  Forwarding is one hop — `_fwd_cb` calls the peer's
`_onclick` directly, which never forwards further — so symmetric sharing
cannot re-trigger the originator. -/
theorem claim7_share_exactly_once
    (cbList : List Str) (T : Transform) (w : World) (self : Nat) (args : List Nat)
    (F : Nat → MapsObj) (tid : Nat) (ev : ClickEv)
    (hndS : (self :: args).Nodup)
    (hw : ∀ j ∈ self :: args, wGet w j = some (F j))
    (hfwd : ∀ j ∈ self :: args, (F j).fwdClick = [])
    (hflags : ∀ j ∈ self :: args,
      (F j).children = [] ∧ (F j).draggable = false ∧ (F j).toolbarActive = false)
    (ht : tid ∈ self :: args)
    (hax : ev.inaxes = some tid) :
    (∀ i ∈ self :: args, ∀ j ∈ self :: args, i ≠ j →
      ∃ mi, wGet (shareEventsClick w self args) i = some mi ∧ j ∈ mi.fwdClick)
    ∧ ∀ mt, wGet (shareEventsClick w self args) tid = some mt →
      (clickcbTrace cbList T (shareEventsClick w self args) mt ev
          = (onclickTrace cbList (F tid).clickReg ev).map (fun p => (tid, p.1, p.2))
            ++ ((self :: args).filter (fun x => x ≠ tid)).flatMap (fun pid =>
                (onclickTrace cbList (F pid).clickReg
                  ⟨some pid, ev.dblclick, ev.button,
                    (T (F pid).crs (F tid).crs (ev.xdata, ev.ydata)).1,
                    (T (F pid).crs (F tid).crs (ev.xdata, ev.ydata)).2⟩).map
                  (fun p => (pid, p.1, p.2)))
        ∧ ∀ j ∈ self :: args,
            (clickcbTrace cbList T (shareEventsClick w self args) mt ev).filter
              (fun q => decide (q.1 = j))
            = (onclickTrace cbList (F j).clickReg
                (if j = tid then ev else
                  ⟨some j, ev.dblclick, ev.button,
                    (T (F j).crs (F tid).crs (ev.xdata, ev.ydata)).1,
                    (T (F j).crs (F tid).crs (ev.xdata, ev.ydata)).2⟩)).map
                (fun p => (j, p.1, p.2))) := by
  have hshare : shareEventsClick w self args
      = (self :: args).foldl (fun w1 m1 =>
          (self :: args).foldl (fun w2 m2 =>
            if m1 ≠ m2 then addFwdClick w2 m1 m2 else w2) w1) w := rfl
  obtain ⟨hin, hout⟩ := outerFold_fwd (self :: args) (self :: args) w hndS hndS
    (fun j hj => ⟨F j, hw j hj, hfwd j hj⟩)
  have hinF : ∀ j ∈ self :: args,
      wGet (shareEventsClick w self args) j
        = some { F j with fwdClick := (self :: args).filter (fun x => x ≠ j) } := by
    intro j hj
    obtain ⟨m, hm, _, hres⟩ := hin j hj
    have hmF : m = F j := by
      rw [hw j hj] at hm
      exact (Option.some_inj.1 hm).symm
    rw [hshare, hres, hmF]
  constructor
  · intro i hi j hj hij
    refine ⟨_, hinF i hi, ?_⟩
    exact List.mem_filter.2 ⟨hj, by simpa using fun hc : j = i => hij hc.symm⟩
  · intro mt hmt
    have hmteq : mt = { F tid with
        fwdClick := (self :: args).filter (fun x => x ≠ tid) } := by
      have h2 := hinF tid ht
      rw [hmt] at h2
      exact Option.some_inj.1 h2
    have hFi : (F tid).iid = tid := wGet_iid (hw tid ht)
    have hmd : mt.draggable = false := by rw [hmteq]; exact (hflags tid ht).2.1
    have hmtool : mt.toolbarActive = false := by rw [hmteq]; exact (hflags tid ht).2.2
    have hmc : mt.children = [] := by rw [hmteq]; exact (hflags tid ht).1
    have hmi : mt.iid = tid := by rw [hmteq]; exact hFi
    have hmreg : mt.clickReg = (F tid).clickReg := by rw [hmteq]
    have hmcrs : mt.crs = (F tid).crs := by rw [hmteq]
    have hmfwd : mt.fwdClick = (self :: args).filter (fun x => x ≠ tid) := by
      rw [hmteq]
    have hfwdeq : fwdClickTrace cbList T (shareEventsClick w self args) mt ev
        = ((self :: args).filter (fun x => x ≠ tid)).flatMap (fun pid =>
            (onclickTrace cbList (F pid).clickReg
              ⟨some pid, ev.dblclick, ev.button,
                (T (F pid).crs (F tid).crs (ev.xdata, ev.ydata)).1,
                (T (F pid).crs (F tid).crs (ev.xdata, ev.ydata)).2⟩).map
              (fun p => (pid, p.1, p.2))) := by
      rw [fwdClickTrace, hmi, hax, if_neg (by simp), hmfwd]
      refine flatMap_congr ?_
      intro pid hpid
      have hpS : pid ∈ self :: args := List.mem_of_mem_filter hpid
      have hpi : (F pid).iid = pid := wGet_iid (hw pid hpS)
      rw [hinF pid hpS]
      simp [hpi, hmcrs]
    have htr0 : clickcbTrace cbList T (shareEventsClick w self args) mt ev
        = (onclickTrace cbList (F tid).clickReg ev).map (fun p => (tid, p.1, p.2))
          ++ fwdClickTrace cbList T (shareEventsClick w self args) mt ev := by
      rw [clickcbTrace, hmd, hmtool, hmc, hmi]
      simp only [Bool.false_eq_true, if_false, List.flatMap_cons, List.flatMap_nil,
        List.append_nil]
      simp only [hmt, hmi, hmreg, hax]
      rw [if_pos trivial]
    have htr : clickcbTrace cbList T (shareEventsClick w self args) mt ev
        = (onclickTrace cbList (F tid).clickReg ev).map (fun p => (tid, p.1, p.2))
          ++ ((self :: args).filter (fun x => x ≠ tid)).flatMap (fun pid =>
              (onclickTrace cbList (F pid).clickReg
                ⟨some pid, ev.dblclick, ev.button,
                  (T (F pid).crs (F tid).crs (ev.xdata, ev.ydata)).1,
                  (T (F pid).crs (F tid).crs (ev.xdata, ev.ydata)).2⟩).map
                (fun p => (pid, p.1, p.2))) :=
      htr0.trans (by rw [hfwdeq])
    refine ⟨htr, ?_⟩
    intro j hj
    rw [htr, List.filter_append, filter_tag, filter_flatMap]
    by_cases hjt : j = tid
    · subst hjt
      rw [if_pos rfl, if_pos rfl]
      have hz : ((self :: args).filter (fun x => x ≠ j)).flatMap (fun pid =>
          ((onclickTrace cbList (F pid).clickReg
            ⟨some pid, ev.dblclick, ev.button,
              (T (F pid).crs (F j).crs (ev.xdata, ev.ydata)).1,
              (T (F pid).crs (F j).crs (ev.xdata, ev.ydata)).2⟩).map
            (fun p => (pid, p.1, p.2))).filter (fun q => decide (q.1 = j))) = [] := by
        rw [flatMap_congr (fun pid hpid => by
          rw [filter_tag, if_neg (by simpa using List.of_mem_filter hpid)])]
        exact flatMap_nil_fun _
      rw [hz, List.append_nil]
    · rw [if_neg (fun hc => hjt hc.symm), List.nil_append, if_neg hjt]
      have hstep : ((self :: args).filter (fun x => x ≠ tid)).flatMap (fun pid =>
          ((onclickTrace cbList (F pid).clickReg
            ⟨some pid, ev.dblclick, ev.button,
              (T (F pid).crs (F tid).crs (ev.xdata, ev.ydata)).1,
              (T (F pid).crs (F tid).crs (ev.xdata, ev.ydata)).2⟩).map
            (fun p => (pid, p.1, p.2))).filter (fun q => decide (q.1 = j)))
          = ((self :: args).filter (fun x => x ≠ tid)).flatMap (fun pid =>
              if pid = j then
                (onclickTrace cbList (F pid).clickReg
                  ⟨some pid, ev.dblclick, ev.button,
                    (T (F pid).crs (F tid).crs (ev.xdata, ev.ydata)).1,
                    (T (F pid).crs (F tid).crs (ev.xdata, ev.ydata)).2⟩).map
                  (fun p => (pid, p.1, p.2))
              else [] ) :=
        flatMap_congr (fun pid _ => filter_tag pid j _)
      rw [hstep, flatMap_single (hndS.filter _)
        (List.mem_filter.2 ⟨hj, by simpa using hjt⟩)]

/-- Witness for `claim7_share_exactly_once`: sharing `A.share_events(B)` on
the two-map world and clicking on `A`. -/
theorem claim7_witness :
    (([0, 1] : List Nat).Nodup
      ∧ (∀ j ∈ ([0, 1] : List Nat), wGet [c7mapA, c7mapB] j = some (c7F j))
      ∧ (∀ j ∈ ([0, 1] : List Nat), (c7F j).fwdClick = [])
      ∧ (∀ j ∈ ([0, 1] : List Nat), (c7F j).children = []
          ∧ (c7F j).draggable = false ∧ (c7F j).toolbarActive = false))
    ∧ (∃ mi, wGet (shareEventsClick [c7mapA, c7mapB] 0 [1]) 0 = some mi
        ∧ 1 ∈ mi.fwdClick)
    ∧ (∃ mj, wGet (shareEventsClick [c7mapA, c7mapB] 0 [1]) 1 = some mj
        ∧ 0 ∈ mj.fwdClick) := by
  have hw : ∀ j ∈ ([0, 1] : List Nat), wGet [c7mapA, c7mapB] j = some (c7F j) := by
    intro j hj
    fin_cases hj <;> rfl
  have hfwd : ∀ j ∈ ([0, 1] : List Nat), (c7F j).fwdClick = [] := by
    intro j hj
    fin_cases hj <;> rfl
  have hflags : ∀ j ∈ ([0, 1] : List Nat), (c7F j).children = []
      ∧ (c7F j).draggable = false ∧ (c7F j).toolbarActive = false := by
    intro j hj
    fin_cases hj <;> exact ⟨rfl, rfl, rfl⟩
  have happ := claim7_share_exactly_once clickCbCatalog tToy [c7mapA, c7mapB] 0 [1]
    c7F 0 ⟨some 0, false, 1, 5, 0⟩ (by decide) hw hfwd hflags (by decide) rfl
  exact ⟨⟨by decide, hw, hfwd, hflags⟩,
    happ.1 0 (by decide) 1 (by decide) (by decide),
    happ.1 1 (by decide) 0 (by decide) (by decide)⟩

/-- Deleting every key of a duplicate-free bucket empties it. -/
theorem foldl_dDel_keys : ∀ (bk : Bucket), (dKeys bk).Nodup →
    (dKeys bk).foldl (fun acc n => dDel acc n) bk = [] := by
  intro bk
  induction bk with
  | nil => intro _; rfl
  | cons p bk' ih =>
    intro hnd
    rw [dKeys, List.map_cons] at hnd ⊢
    rw [List.nodup_cons] at hnd
    rw [List.foldl_cons]
    have h1 : dDel (p :: bk') p.1 = bk' := by
      rw [dDel, List.filter_cons_of_neg (by simp)]
      exact dDel_absent (dGet_none_iff_not_mem.2 hnd.1)
    rw [h1]
    exact ih hnd.2

/-- Removing one bucket's worth of enumerated click identities. -/
theorem clickFold_bucket (d : Str) (b : Nat) : ∀ (names : List Str) (r : ClickReg)
    (dd : DsDict) (bk : Bucket),
    (∀ n ∈ names, splitSep (n ++ sep ++ d ++ sep ++ natToStr b) = [n, d, natToStr b]) →
    dGet r d = some dd → dGet dd b = some bk →
    (names.map (fun n => n ++ sep ++ d ++ sep ++ natToStr b)).foldlM
        (fun r k => removeClick r (some k)) r
      = .ok (dSet r d (dSet dd b (names.foldl (fun acc n => dDel acc n) bk))) := by
  intro names
  induction names with
  | nil =>
    intro r dd bk _ hd hb
    rw [List.map_nil, List.foldlM_nil, List.foldl_nil, dSet_same hb, dSet_same hd]
    rfl
  | cons n ns ih =>
    intro r dd bk hsplit hd hb
    rw [List.map_cons, List.foldlM_cons]
    rw [removeClick_wf r (hsplit n (List.mem_cons_self _ _))]
    have hcr : clickRemove r n d b = dSet r d (dSet dd b (dDel bk n)) := by
      by_cases hN : (dGet bk n).isSome
      · simp [clickRemove, hd, hb, hN]
      · have hnone : dGet bk n = none := by
          cases hg : dGet bk n with
          | none => rfl
          | some v => rw [hg] at hN; simp at hN
        rw [dDel_absent hnone, dSet_same hb, dSet_same hd]
        simp [clickRemove, hd, hb, hN]
    rw [hcr]
    have hd' : dGet (dSet r d (dSet dd b (dDel bk n))) d = some (dSet dd b (dDel bk n)) :=
      dGet_dSet_self _ _ _
    have hb' : dGet (dSet dd b (dDel bk n)) b = some (dDel bk n) := dGet_dSet_self _ _ _
    have := ih (dSet r d (dSet dd b (dDel bk n))) (dSet dd b (dDel bk n)) (dDel bk n)
      (fun m hm => hsplit m (List.mem_cons_of_mem _ hm)) hd' hb'
    rw [show ((Except.ok (dSet r d (dSet dd b (dDel bk n))) : Except PyErr ClickReg) >>=
        fun r2 => (ns.map (fun n => n ++ sep ++ d ++ sep ++ natToStr b)).foldlM
          (fun r k => removeClick r (some k)) r2)
      = (ns.map (fun n => n ++ sep ++ d ++ sep ++ natToStr b)).foldlM
          (fun r k => removeClick r (some k)) (dSet r d (dSet dd b (dDel bk n)))
      from rfl]
    rw [this, dSet_dSet_self, dSet_dSet_self]
    rfl

/-- Emptying every bucket of a duplicate-free button dict by successive
`dSet`s rewrites it in place. -/
theorem foldl_dSet_clearB : ∀ (l done : List (Nat × Bucket)),
    (((done ++ l).map Prod.fst).Nodup) →
    l.foldl (fun acc bp => dSet acc bp.1 ([] : Bucket)) (done ++ l)
      = done ++ l.map (fun bp => (bp.1, ([] : Bucket))) := by
  intro l
  induction l with
  | nil => intro done _; simp
  | cons p l' ih =>
    intro done hnd
    rw [List.foldl_cons]
    have hnotdone : p.1 ∉ dKeys done := by
      rw [List.map_append] at hnd
      intro hc
      exact (List.disjoint_of_nodup_append hnd) hc
        (List.mem_map_of_mem Prod.fst (List.mem_cons_self _ _))
    have h1 : dSet (done ++ p :: l') p.1 ([] : Bucket)
        = (done ++ [(p.1, ([] : Bucket))]) ++ l' := by
      rw [dSet_append_not_mem _ _ hnotdone]
      rw [show dSet (p :: l') p.1 ([] : Bucket) = (p.1, ([] : Bucket)) :: l' by
        rw [dSet, if_pos rfl]]
      simp
    rw [h1]
    have hnd' : (((done ++ [(p.1, ([] : Bucket))]) ++ l').map Prod.fst).Nodup := by
      have : ((done ++ [(p.1, ([] : Bucket))]) ++ l').map Prod.fst
          = (done ++ p :: l').map Prod.fst := by simp
      rw [this]
      exact hnd
    rw [ih _ hnd']
    simp

/-- As `foldl_dSet_clearB`, for the outer group dict of a click registry. -/
theorem foldl_dSet_clearG : ∀ (l done : List (Str × DsDict)),
    (((done ++ l).map Prod.fst).Nodup) →
    l.foldl (fun acc g => dSet acc g.1 (clearDs g.2)) (done ++ l)
      = done ++ l.map (fun g => (g.1, clearDs g.2)) := by
  intro l
  induction l with
  | nil => intro done _; simp
  | cons p l' ih =>
    intro done hnd
    rw [List.foldl_cons]
    have hnotdone : p.1 ∉ dKeys done := by
      rw [List.map_append] at hnd
      intro hc
      exact (List.disjoint_of_nodup_append hnd) hc
        (List.mem_map_of_mem Prod.fst (List.mem_cons_self _ _))
    have h1 : dSet (done ++ p :: l') p.1 (clearDs p.2)
        = (done ++ [(p.1, clearDs p.2)]) ++ l' := by
      rw [dSet_append_not_mem _ _ hnotdone]
      rw [show dSet (p :: l') p.1 (clearDs p.2) = (p.1, clearDs p.2) :: l' by
        rw [dSet, if_pos rfl]]
      simp
    rw [h1]
    have hnd' : (((done ++ [(p.1, clearDs p.2)]) ++ l').map Prod.fst).Nodup := by
      have : ((done ++ [(p.1, clearDs p.2)]) ++ l').map Prod.fst
          = (done ++ p :: l').map Prod.fst := by simp
      rw [this]
      exact hnd
    rw [ih _ hnd']
    simp

/-- As `foldl_dSet_clearB`, for a keypress registry. -/
theorem foldl_dSet_clearK : ∀ (l done : List (Str × Bucket)),
    (((done ++ l).map Prod.fst).Nodup) →
    l.foldl (fun acc g => dSet acc g.1 ([] : Bucket)) (done ++ l)
      = done ++ l.map (fun g => (g.1, ([] : Bucket))) := by
  intro l
  induction l with
  | nil => intro done _; simp
  | cons p l' ih =>
    intro done hnd
    rw [List.foldl_cons]
    have hnotdone : p.1 ∉ dKeys done := by
      rw [List.map_append] at hnd
      intro hc
      exact (List.disjoint_of_nodup_append hnd) hc
        (List.mem_map_of_mem Prod.fst (List.mem_cons_self _ _))
    have h1 : dSet (done ++ p :: l') p.1 ([] : Bucket)
        = (done ++ [(p.1, ([] : Bucket))]) ++ l' := by
      rw [dSet_append_not_mem _ _ hnotdone]
      rw [show dSet (p :: l') p.1 ([] : Bucket) = (p.1, ([] : Bucket)) :: l' by
        rw [dSet, if_pos rfl]]
      simp
    rw [h1]
    have hnd' : (((done ++ [(p.1, ([] : Bucket))]) ++ l').map Prod.fst).Nodup := by
      have : ((done ++ [(p.1, ([] : Bucket))]) ++ l').map Prod.fst
          = (done ++ p :: l').map Prod.fst := by simp
      rw [this]
      exact hnd
    rw [ih _ hnd']
    simp

/-- Binding an `Except.ok` value just applies the continuation. -/
theorem exceptBind_ok {α β : Type} (v : α) (f : α → Except PyErr β) :
    ((Except.ok v : Except PyErr α) >>= f) = f v := rfl

/-- Removing one group's worth of enumerated click identities, over all of
the group's buttons. -/
theorem clickFold_group (d : Str) : ∀ (bps : List (Nat × Bucket)) (r : ClickReg)
    (dd : DsDict),
    dGet r d = some dd →
    (∀ bp ∈ bps, dGet dd bp.1 = some bp.2) →
    ((bps.map Prod.fst).Nodup) →
    (∀ bp ∈ bps, (dKeys bp.2).Nodup) →
    (∀ bp ∈ bps, ∀ n ∈ dKeys bp.2,
      splitSep (n ++ sep ++ d ++ sep ++ natToStr bp.1) = [n, d, natToStr bp.1]) →
    (bps.flatMap (fun bp =>
        (dKeys bp.2).map (fun n => n ++ sep ++ d ++ sep ++ natToStr bp.1))).foldlM
      (fun r k => removeClick r (some k)) r
      = .ok (dSet r d (bps.foldl (fun acc bp => dSet acc bp.1 ([] : Bucket)) dd)) := by
  intro bps
  induction bps with
  | nil =>
    intro r dd hd _ _ _ _
    rw [List.flatMap_nil, List.foldlM_nil, List.foldl_nil, dSet_same hd]
    rfl
  | cons bp bps' ih =>
    intro r dd hd hmem hnd hbnd hsplit
    rw [List.flatMap_cons, List.foldlM_append]
    rw [clickFold_bucket d bp.1 (dKeys bp.2) r dd bp.2
      (fun n hn => hsplit bp (List.mem_cons_self _ _) n hn) hd
      (hmem bp (List.mem_cons_self _ _))]
    rw [foldl_dDel_keys bp.2 (hbnd bp (List.mem_cons_self _ _))]
    rw [exceptBind_ok]
    rw [List.map_cons, List.nodup_cons] at hnd
    have hd' : dGet (dSet r d (dSet dd bp.1 ([] : Bucket))) d
        = some (dSet dd bp.1 ([] : Bucket)) := dGet_dSet_self _ _ _
    have hmem' : ∀ q ∈ bps', dGet (dSet dd bp.1 ([] : Bucket)) q.1 = some q.2 := by
      intro q hq
      have hne : q.1 ≠ bp.1 := by
        intro hc
        exact hnd.1 (List.mem_map.2 ⟨q, hq, hc⟩)
      rw [dGet_dSet_ne _ _ hne]
      exact hmem q (List.mem_cons_of_mem _ hq)
    rw [ih (dSet r d (dSet dd bp.1 ([] : Bucket))) (dSet dd bp.1 ([] : Bucket)) hd' hmem'
      hnd.2 (fun q hq => hbnd q (List.mem_cons_of_mem _ hq))
      (fun q hq => hsplit q (List.mem_cons_of_mem _ hq))]
    rw [dSet_dSet_self]
    rfl

/-- Removing every enumerated click identity empties every bucket of every
group in place. -/
theorem clickFold_all : ∀ (gs : List (Str × DsDict)) (r : ClickReg),
    (∀ g ∈ gs, dGet r g.1 = some g.2) →
    ((gs.map Prod.fst).Nodup) →
    (∀ g ∈ gs, ((g.2.map Prod.fst).Nodup)) →
    (∀ g ∈ gs, ∀ bp ∈ g.2, (dKeys bp.2).Nodup) →
    (∀ g ∈ gs, ∀ bp ∈ g.2, ∀ n ∈ dKeys bp.2,
      splitSep (n ++ sep ++ g.1 ++ sep ++ natToStr bp.1) = [n, g.1, natToStr bp.1]) →
    (gs.flatMap (fun dsp => dsp.2.flatMap (fun bp =>
        (dKeys bp.2).map (fun name => name ++ sep ++ dsp.1 ++ sep ++ natToStr bp.1)))).foldlM
      (fun r k => removeClick r (some k)) r
      = .ok (gs.foldl (fun acc g => dSet acc g.1 (clearDs g.2)) r) := by
  intro gs
  induction gs with
  | nil => intro r _ _ _ _ _; rfl
  | cons g gs' ih =>
    intro r hget hnd hbnd hknd hsplit
    rw [List.flatMap_cons, List.foldlM_append]
    have hmem : ∀ bp ∈ g.2, dGet g.2 bp.1 = some bp.2 :=
      fun bp hbp => dGet_of_mem_nodup (hbnd g (List.mem_cons_self _ _)) hbp
    rw [clickFold_group g.1 g.2 r g.2 (hget g (List.mem_cons_self _ _)) hmem
      (hbnd g (List.mem_cons_self _ _)) (hknd g (List.mem_cons_self _ _))
      (hsplit g (List.mem_cons_self _ _))]
    have hB := foldl_dSet_clearB g.2 [] (by rw [List.nil_append]; exact hbnd g (List.mem_cons_self _ _))
    simp only [List.nil_append] at hB
    rw [hB, exceptBind_ok]
    rw [List.map_cons, List.nodup_cons] at hnd
    have hget' : ∀ q ∈ gs', dGet (dSet r g.1 (g.2.map (fun bp => (bp.1, ([] : Bucket))))) q.1
        = some q.2 := by
      intro q hq
      have hne : q.1 ≠ g.1 := by
        intro hc
        exact hnd.1 (List.mem_map.2 ⟨q, hq, hc⟩)
      rw [dGet_dSet_ne _ _ hne]
      exact hget q (List.mem_cons_of_mem _ hq)
    rw [ih (dSet r g.1 (g.2.map (fun bp => (bp.1, ([] : Bucket))))) hget' hnd.2
      (fun q hq => hbnd q (List.mem_cons_of_mem _ hq))
      (fun q hq => hknd q (List.mem_cons_of_mem _ hq))
      (fun q hq => hsplit q (List.mem_cons_of_mem _ hq))]
    rfl

/-- Removing one key's worth of enumerated keypress identities. -/
theorem keyFold_bucket (k : Str) : ∀ (names : List Str) (r : KeyReg) (bk : Bucket),
    (∀ n ∈ names, splitSep (n ++ sep ++ k) = [n, k]) →
    dGet r k = some bk →
    (names.map (fun n => n ++ sep ++ k)).foldlM (fun r k => removeKey r (some k)) r
      = .ok (dSet r k (names.foldl (fun acc n => dDel acc n) bk)) := by
  intro names
  induction names with
  | nil =>
    intro r bk _ hk
    rw [List.map_nil, List.foldlM_nil, List.foldl_nil, dSet_same hk]
    rfl
  | cons n ns ih =>
    intro r bk hsplit hk
    rw [List.map_cons, List.foldlM_cons]
    rw [removeKey_wf r (hsplit n (List.mem_cons_self _ _))]
    have hcr : keyRemove r n k = dSet r k (dDel bk n) := by
      by_cases hN : (dGet bk n).isSome
      · simp [keyRemove, hk, hN]
      · have hnone : dGet bk n = none := by
          cases hg : dGet bk n with
          | none => rfl
          | some v => rw [hg] at hN; simp at hN
        rw [dDel_absent hnone, dSet_same hk]
        simp [keyRemove, hk, hN]
    rw [hcr]
    rw [show ((Except.ok (dSet r k (dDel bk n)) : Except PyErr KeyReg) >>=
        fun r2 => (ns.map (fun n => n ++ sep ++ k)).foldlM
          (fun r k => removeKey r (some k)) r2)
      = (ns.map (fun n => n ++ sep ++ k)).foldlM
          (fun r k => removeKey r (some k)) (dSet r k (dDel bk n))
      from rfl]
    have hk' : dGet (dSet r k (dDel bk n)) k = some (dDel bk n) := dGet_dSet_self _ _ _
    rw [ih (dSet r k (dDel bk n)) (dDel bk n)
      (fun m hm => hsplit m (List.mem_cons_of_mem _ hm)) hk']
    rw [dSet_dSet_self]
    rfl

/-- Removing every enumerated keypress identity empties every key bucket in
place. -/
theorem keyFold_all : ∀ (gs : List (Str × Bucket)) (r : KeyReg),
    (∀ g ∈ gs, dGet r g.1 = some g.2) →
    ((gs.map Prod.fst).Nodup) →
    (∀ g ∈ gs, (dKeys g.2).Nodup) →
    (∀ g ∈ gs, ∀ n ∈ dKeys g.2, splitSep (n ++ sep ++ g.1) = [n, g.1]) →
    (gs.flatMap (fun kp => (dKeys kp.2).map (fun name => name ++ sep ++ kp.1))).foldlM
        (fun r k => removeKey r (some k)) r
      = .ok (gs.foldl (fun acc g => dSet acc g.1 ([] : Bucket)) r) := by
  intro gs
  induction gs with
  | nil => intro r _ _ _ _; rfl
  | cons g gs' ih =>
    intro r hget hnd hknd hsplit
    rw [List.flatMap_cons, List.foldlM_append]
    rw [keyFold_bucket g.1 (dKeys g.2) r g.2 (hsplit g (List.mem_cons_self _ _))
      (hget g (List.mem_cons_self _ _))]
    rw [foldl_dDel_keys g.2 (hknd g (List.mem_cons_self _ _))]
    rw [exceptBind_ok]
    rw [List.map_cons, List.nodup_cons] at hnd
    have hget' : ∀ q ∈ gs', dGet (dSet r g.1 ([] : Bucket)) q.1 = some q.2 := by
      intro q hq
      have hne : q.1 ≠ g.1 := by
        intro hc
        exact hnd.1 (List.mem_map.2 ⟨q, hq, hc⟩)
      rw [dGet_dSet_ne _ _ hne]
      exact hget q (List.mem_cons_of_mem _ hq)
    rw [ih (dSet r g.1 ([] : Bucket)) hget' hnd.2
      (fun q hq => hknd q (List.mem_cons_of_mem _ hq))
      (fun q hq => hsplit q (List.mem_cons_of_mem _ hq))]
    rfl

/-- A group whose buckets are all empty enumerates no identity. -/
theorem flatMap_group_clear (d : Str) : ∀ (dd : List (Nat × Bucket)),
    (dd.map (fun bp => (bp.1, ([] : Bucket)))).flatMap
      (fun bp => (dKeys bp.2).map (fun name => name ++ sep ++ d ++ sep ++ natToStr bp.1))
      = [] := by
  intro dd
  induction dd with
  | nil => rfl
  | cons bp dd' ih =>
    rw [List.map_cons, List.flatMap_cons, ih]
    rfl

/-- A click registry whose buckets are all empty enumerates no identity. -/
theorem enumClick_clear : ∀ (r : ClickReg),
    enumClick (r.map (fun g => (g.1, clearDs g.2))) = [] := by
  intro r
  induction r with
  | nil => rfl
  | cons g r' ih =>
    rw [enumClick, List.map_cons, List.flatMap_cons]
    rw [show (r'.map (fun g => (g.1, clearDs g.2))).flatMap (fun dsp =>
        dsp.2.flatMap (fun bp => (dKeys bp.2).map
          (fun name => name ++ sep ++ dsp.1 ++ sep ++ natToStr bp.1)))
      = enumClick (r'.map (fun g => (g.1, clearDs g.2))) from rfl, ih]
    rw [List.append_nil]
    exact flatMap_group_clear g.1 g.2

/-- A keypress registry whose buckets are all empty enumerates no identity. -/
theorem enumKey_clear : ∀ (r : KeyReg),
    enumKey (r.map (fun g => (g.1, ([] : Bucket)))) = [] := by
  intro r
  induction r with
  | nil => rfl
  | cons g r' ih =>
    rw [enumKey, List.map_cons, List.flatMap_cons]
    rw [show (r'.map (fun g => (g.1, ([] : Bucket)))).flatMap (fun kp =>
        (dKeys kp.2).map (fun name => name ++ sep ++ kp.1))
      = enumKey (r'.map (fun g => (g.1, ([] : Bucket)))) from rfl, ih]
    rfl

/-- Claim C9 (theorem for the corrected claim): on figure close, `_on_close`
iterates `self._methods = ["click", "keypress"]` and removes every attached
click and keypress callback through the standard `remove` path without
raising, but the `pick` registry is not in `_methods` and survives
untouched. -/
theorem claim9_onclose (c : CbContainer) (hwc : WFClick c.click)
    (hwk : WFKey c.keypress) :
    ∃ c' : CbContainer, onClose c = .ok c'
      ∧ enumClick c'.click = [] ∧ enumKey c'.keypress = [] ∧ c'.pick = c.pick := by
  obtain ⟨hnd1, hnd2, hnd3, hsp⟩ := hwc
  obtain ⟨knd1, knd2, ksp⟩ := hwk
  have hget : ∀ g ∈ c.click, dGet c.click g.1 = some g.2 :=
    fun g hg => dGet_of_mem_nodup hnd1 hg
  have kget : ∀ g ∈ c.keypress, dGet c.keypress g.1 = some g.2 :=
    fun g hg => dGet_of_mem_nodup knd1 hg
  have hcl : (enumClick c.click).foldlM (fun r k => removeClick r (some k)) c.click
      = .ok (c.click.foldl (fun acc g => dSet acc g.1 (clearDs g.2)) c.click) := by
    rw [enumClick]
    exact clickFold_all c.click c.click hget hnd1 hnd2 hnd3 hsp
  have hkp : (enumKey c.keypress).foldlM (fun r k => removeKey r (some k)) c.keypress
      = .ok (c.keypress.foldl (fun acc g => dSet acc g.1 ([] : Bucket)) c.keypress) := by
    rw [enumKey]
    exact keyFold_all c.keypress c.keypress kget knd1 knd2 ksp
  have hfc : c.click.foldl (fun acc g => dSet acc g.1 (clearDs g.2)) c.click
      = c.click.map (fun g => (g.1, clearDs g.2)) := by
    have h := foldl_dSet_clearG c.click [] (by simp only [List.nil_append]; exact hnd1)
    simp only [List.nil_append] at h
    exact h
  have hfk : c.keypress.foldl (fun acc g => dSet acc g.1 ([] : Bucket)) c.keypress
      = c.keypress.map (fun g => (g.1, ([] : Bucket))) := by
    have h := foldl_dSet_clearK c.keypress [] (by simp only [List.nil_append]; exact knd1)
    simp only [List.nil_append] at h
    exact h
  refine ⟨⟨c.click.map (fun g => (g.1, clearDs g.2)), c.pick,
      c.keypress.map (fun g => (g.1, ([] : Bucket)))⟩, ?_, ?_, ?_, rfl⟩
  · show ((enumClick c.click).foldlM (fun r k => removeClick r (some k)) c.click >>=
      fun cl => ((enumKey c.keypress).foldlM (fun r k => removeKey r (some k)) c.keypress >>=
        fun kp => pure (⟨cl, c.pick, kp⟩ : CbContainer))) = _
    rw [hcl, exceptBind_ok, hkp, exceptBind_ok, hfc, hfk]
    rfl
  · exact enumClick_clear c.click
  · exact enumKey_clear c.keypress

/-- Claim C9 (counterexample): closing the figure removes the click and
keypress callbacks, but the pick callback `mark_0__single__1` is still
attached afterwards — `_on_close` iterates `self._methods`, which omits
`pick` — contradicting "each of the three event classes". -/
theorem claim9_counterexample :
    Except.map (fun c' => (enumClick c'.click, enumKey c'.keypress, enumClick c'.pick))
      (onClose c9cont)
      = .ok ([], [], [sL ("mark_0__single__1")]) := by decide

/-- Witness for `claim9_onclose` at the concrete container `c9cont`. -/
theorem claim9_witness :
    WFClick c9cont.click ∧ WFKey c9cont.keypress
      ∧ ∃ c' : CbContainer, onClose c9cont = .ok c'
        ∧ enumClick c'.click = [] ∧ enumKey c'.keypress = []
        ∧ c'.pick = c9cont.pick :=
  ⟨by decide, by decide, claim9_onclose c9cont (by decide) (by decide)⟩
